import Mathlib

/-!
Verification of the forex signal bot (src/main.py) against its
specification.  The indicator pipeline operates on pandas float series; we
embed series values as `FV`, an exact-rational carrier extended with the
IEEE special values NaN and signed infinity, so that the divide-by-zero
and NaN-propagation behaviour of the numpy arithmetic (x/0 = inf,
0/0 = NaN, comparisons with NaN are false, rolling windows containing NaN
are NaN) is represented faithfully while the field arithmetic itself is
exact.  Candle data is exact rational, as produced by decimal quote feeds.
-/

set_option maxRecDepth 20000

namespace ForexBot

/-- Series value: a pandas float64 cell, embedded as NaN, signed infinity
or an exact rational. -/
inductive FV where
  | nan : FV
  | inf : Bool → FV
  | fin : ℚ → FV
deriving DecidableEq

namespace FV

/-- The pandas `isna` test: true exactly on NaN. -/
def isna : FV → Bool
  | nan => true
  | _ => false

/-- IEEE negation. -/
def neg : FV → FV
  | nan => nan
  | inf b => inf !b
  | fin q => fin (-q)

/-- IEEE addition over exact rationals. -/
def add : FV → FV → FV
  | nan, _ => nan
  | inf a, inf b => if a = b then inf a else nan
  | inf a, fin _ => inf a
  | fin _, inf b => inf b
  | fin a, fin b => fin (a + b)
  | fin _, nan => nan
  | inf _, nan => nan

/-- IEEE subtraction. -/
def sub (x y : FV) : FV := add x (neg y)

/-- IEEE multiplication (inf * 0 = NaN). -/
def mul : FV → FV → FV
  | nan, _ => nan
  | inf a, inf b => inf (a == b)
  | inf a, fin q => if q = 0 then nan else if 0 < q then inf a else inf !a
  | fin q, inf b => if q = 0 then nan else if 0 < q then inf b else inf !b
  | fin a, fin b => fin (a * b)
  | fin _, nan => nan
  | inf _, nan => nan

/-- IEEE division: x/0 is signed infinity for x nonzero, 0/0 is NaN,
inf/inf is NaN, finite/inf is 0.  This is the numpy behaviour used by the
pandas expressions in the source; no exception is ever raised. -/
def div : FV → FV → FV
  | nan, _ => nan
  | inf _, inf _ => nan
  | inf a, fin q => if 0 ≤ q then inf a else inf !a
  | fin _, inf _ => fin 0
  | fin a, fin b =>
      if b = 0 then (if a = 0 then nan else if 0 < a then inf true else inf false)
      else fin (a / b)
  | fin _, nan => nan
  | inf _, nan => nan

/-- IEEE absolute value. -/
def abs : FV → FV
  | nan => nan
  | inf _ => inf true
  | fin q => fin |q|

/-- IEEE comparison: any comparison with NaN is false. -/
def le : FV → FV → Bool
  | nan, _ => false
  | _, nan => false
  | inf a, inf b => !a || b
  | inf a, fin _ => !a
  | fin _, inf b => b
  | fin a, fin b => a ≤ b

/-- IEEE strict comparison: any comparison with NaN is false. -/
def lt : FV → FV → Bool
  | nan, _ => false
  | _, nan => false
  | inf a, inf b => !a && b
  | inf a, fin _ => !a
  | fin _, inf b => b
  | fin a, fin b => a < b

/-- The pandas `clip(lower=lo)`: NaN passes through. -/
def clipLower (lo : ℚ) : FV → FV
  | nan => nan
  | inf b => if b then inf true else fin lo
  | fin q => fin (max q lo)

/-- The pandas `clip(upper=hi)`: NaN passes through. -/
def clipUpper (hi : ℚ) : FV → FV
  | nan => nan
  | inf b => if b then fin hi else inf false
  | fin q => fin (min q hi)

/-- Binary maximum skipping NaN, as in a pandas row-wise `max(axis=1)`
(skipna defaults to true). -/
def max2 : FV → FV → FV
  | nan, y => y
  | x, nan => x
  | x, y => if le x y then y else x

/-- Sum of a list of series values (the numerator of a rolling mean). -/
def sumList (l : List FV) : FV := l.foldl add (fin 0)

end FV

instance : Add FV := ⟨FV.add⟩

instance : Sub FV := ⟨FV.sub⟩

instance : Mul FV := ⟨FV.mul⟩

instance : Div FV := ⟨FV.div⟩

instance : Neg FV := ⟨FV.neg⟩

/-- Row-wise maximum of three columns with NaN skipped, as in
`pd.concat([...], axis=1).max(axis=1)`. -/
def rowMax3 (a b c : FV) : FV := FV.max2 (FV.max2 a b) c

/-- The pandas `Series.rolling(w).mean()`: NaN during the warm-up
(window not yet full) and the exact window mean otherwise; a NaN inside
the window makes the result NaN (min_periods defaults to the window). -/
def rollingMean (w : ℕ) (s : List FV) : List FV :=
  (List.range s.length).map fun i =>
    if i + 1 < w then FV.nan
    else FV.sumList ((s.take (i + 1)).drop (i + 1 - w)) / FV.fin (w : ℚ)

/-- The `replace([pd.NA, pd.NaT], 0)` step of the ADX computation: NaN
becomes 0, everything else (including infinities) passes through. -/
def replaceNA (v : FV) : FV := if v.isna then FV.fin 0 else v

/-- The pandas `Series.diff()`: first entry NaN, then successive
differences. -/
def diffFV : List ℚ → List FV
  | [] => []
  | x :: xs => FV.nan :: List.zipWith (fun b a => FV.fin (b - a)) xs (x :: xs)

/-- One candle of OHLC data (the open and timestamp fields are unused by
the indicator pipeline). -/
structure Candle where
  high : ℚ
  low : ℚ
  close : ℚ
deriving DecidableEq

/-- A candle sequence is well formed when each close lies between the
candle's low and high. -/
def wellFormed (df : List Candle) : Bool :=
  df.all fun c => decide (c.low ≤ c.close) && decide (c.close ≤ c.high)

/-- Closes of a candle frame, as exact rationals. -/
def closeList (df : List Candle) : List ℚ := df.map Candle.close

/-- The pandas `close.shift(1)` applied to the close column: previous
close, NaN at index 0. -/
def prevCloseList : List Candle → List FV
  | [] => []
  | c :: cs => FV.nan :: ((c :: cs).map fun x => FV.fin x.close).dropLast

/-- The pandas `Series.shift(1)` on a series. -/
def shiftOne : List FV → List FV
  | [] => []
  | x :: xs => FV.nan :: (x :: xs).dropLast

/-- Lines 96-97: exponential moving average, `ewm(span=length,
adjust=False).mean()`.  Seeded with the first value; recurrence
y = (1-a) * y_prev + a * x with a = 2/(length+1). -/
def emaGo (a : ℚ) (prev : ℚ) : List ℚ → List ℚ
  | [] => []
  | x :: xs =>
    let y := (1 - a) * prev + a * x
    y :: emaGo a y xs

/-- Exponential moving average of a series (lines 96-97 of the source). -/
def ema (s : List ℚ) (length : ℕ) : List ℚ :=
  match s with
  | [] => []
  | x :: xs => x :: emaGo (2 / ((length : ℚ) + 1)) x xs

/-- Lines 100-110: RSI.  delta = diff, gain = clip(lower=0),
loss = -clip(upper=0), rolling means, rs = gain/loss,
rsi = 100 - 100/(1+rs). -/
def rsi (s : List ℚ) (length : ℕ) : List FV :=
  let delta := diffFV s
  let gain := delta.map (FV.clipLower 0)
  let loss := (delta.map (FV.clipUpper 0)).map FV.neg
  let avg_gain := rollingMean length gain
  let avg_loss := rollingMean length loss
  List.zipWith (fun g l => FV.fin 100 - FV.fin 100 / (FV.fin 1 + g / l))
    avg_gain avg_loss

/-- Lines 113-124 (and 139-148): true range series,
max(high-low, |high-prev_close|, |low-prev_close|) with the row maximum
skipping the NaN entries of the first row. -/
def trList (cs : List Candle) : List FV :=
  List.zipWith
    (fun c pc =>
      rowMax3 (FV.fin c.high - FV.fin c.low)
        ((FV.fin c.high - pc).abs) ((FV.fin c.low - pc).abs))
    cs (prevCloseList cs)

/-- Lines 113-124: ATR, the rolling mean of the true range. -/
def atr (cs : List Candle) (length : ℕ) : List FV :=
  rollingMean length (trList cs)

/-- High column as series values. -/
def highsFV (cs : List Candle) : List FV := cs.map fun c => FV.fin c.high

/-- Low column as series values. -/
def lowsFV (cs : List Candle) : List FV := cs.map fun c => FV.fin c.low

/-- Line 133: raw +DM, `(high - prev_high).clip(lower=0)`. -/
def adxPlusDMraw (cs : List Candle) : List FV :=
  List.zipWith (fun h ph => FV.clipLower 0 (h - ph)) (highsFV cs) (shiftOne (highsFV cs))

/-- Line 134: raw -DM, `(prev_low - low).clip(lower=0)`. -/
def adxMinusDMraw (cs : List Candle) : List FV :=
  List.zipWith (fun pl l => FV.clipLower 0 (pl - l)) (shiftOne (lowsFV cs)) (lowsFV cs)

/-- Line 136: `plus_dm.where(plus_dm > minus_dm, 0.0)`; a NaN comparison
counts as false, so the first row becomes 0. -/
def adxPlusDM (cs : List Candle) : List FV :=
  List.zipWith (fun p m => if FV.lt m p then p else FV.fin 0)
    (adxPlusDMraw cs) (adxMinusDMraw cs)

/-- Line 137: `minus_dm.where(minus_dm > plus_dm, 0.0)`, comparing against
the already reassigned plus_dm of line 136. -/
def adxMinusDM (cs : List Candle) : List FV :=
  List.zipWith (fun m p => if FV.lt p m then m else FV.fin 0)
    (adxMinusDMraw cs) (adxPlusDM cs)

/-- Line 149: `plus_di = 100 * (plus_dm.rolling(length).mean() / atr_val)`. -/
def adxPlusDI (cs : List Candle) (length : ℕ) : List FV :=
  List.zipWith (fun dm a => FV.fin 100 * (dm / a))
    (rollingMean length (adxPlusDM cs)) (atr cs length)

/-- Line 150: `minus_di = 100 * (minus_dm.rolling(length).mean() / atr_val)`. -/
def adxMinusDI (cs : List Candle) (length : ℕ) : List FV :=
  List.zipWith (fun dm a => FV.fin 100 * (dm / a))
    (rollingMean length (adxMinusDM cs)) (atr cs length)

/-- Line 152: `dx = (abs(plus_di - minus_di) / (plus_di + minus_di))
.replace([pd.NA, pd.NaT], 0) * 100`. -/
def adxDX (cs : List Candle) (length : ℕ) : List FV :=
  List.zipWith (fun p m => replaceNA ((p - m).abs / (p + m)) * FV.fin 100)
    (adxPlusDI cs length) (adxMinusDI cs length)

/-- Lines 127-154: ADX, the rolling mean of DX. -/
def adx (cs : List Candle) (length : ℕ) : List FV :=
  rollingMean length (adxDX cs length)

/-- Strategy parameters, lines 26-48 of the source. -/
def EMA_FAST : ℕ := 20

def EMA_SLOW : ℕ := 50

def MACD_FAST : ℕ := 12

def MACD_SLOW : ℕ := 26

def MACD_SIGNAL : ℕ := 9

def RSI_LEN : ℕ := 14

def RSI_BUY_MIN : ℚ := 40

def RSI_BUY_MAX : ℚ := 65

def RSI_SELL_MIN : ℚ := 35

def RSI_SELL_MAX : ℚ := 60

def ADX_LEN : ℕ := 14

def ADX_MIN : ℚ := 20

def ATR_LEN : ℕ := 14

def ATR_SL_MULT : ℚ := 1

def TP1_MULT : ℚ := 1

def TP2_MULT : ℚ := 9 / 5

def TP3_MULT : ℚ := 5 / 2

/-- Lines 157-163: MACD line = EMA(fast) - EMA(slow). -/
def macd_line (s : List ℚ) : List ℚ :=
  List.zipWith (fun a b => a - b) (ema s MACD_FAST) (ema s MACD_SLOW)

/-- Lines 157-163: MACD signal line = EMA(MACD line, signal length). -/
def macd_sig (s : List ℚ) : List ℚ := ema (macd_line s) MACD_SIGNAL

/-- Lines 157-163: MACD histogram = line - signal line. -/
def macd_hist (s : List ℚ) : List ℚ :=
  List.zipWith (fun a b => a - b) (macd_line s) (macd_sig s)

/-- Lines 179-180: golden-cross test. -/
def cross_above (curr_fast curr_slow prev_fast prev_slow : ℚ) : Bool :=
  decide (prev_fast ≤ prev_slow) && decide (curr_fast > curr_slow)

/-- Lines 183-184: death-cross test. -/
def cross_below (curr_fast curr_slow prev_fast prev_slow : ℚ) : Bool :=
  decide (prev_fast ≥ prev_slow) && decide (curr_fast < curr_slow)

/-- Signal direction; the source encodes HOLD as Python None. -/
inductive Direction where
  | buy : Direction
  | sell : Direction
deriving DecidableEq

/-- An emitted signal: the data carried by the alert message built in
lines 288-321 (pre-formatting). -/
structure Signal where
  pair : String
  direction : Direction
  price : FV
  sl : FV
  tp1 : FV
  tp2 : FV
  tp3 : FV
deriving DecidableEq

/-- Line 217: the warm-up guard threshold
max(EMA_SLOW, MACD_SLOW, RSI_LEN, ATR_LEN, ADX_LEN) + 5 = 55. -/
def minBars : ℕ := max EMA_SLOW (max MACD_SLOW (max RSI_LEN (max ATR_LEN ADX_LEN))) + 5

/-- Line 230-231 accessors: current fast EMA value (iloc[-1]). -/
def emaFnow (df : List Candle) : ℚ :=
  (ema (closeList df) EMA_FAST).getD (df.length - 1) 0

/-- Previous fast EMA value (iloc[-2]). -/
def emaFprev (df : List Candle) : ℚ :=
  (ema (closeList df) EMA_FAST).getD (df.length - 2) 0

/-- Current slow EMA value. -/
def emaSnow (df : List Candle) : ℚ :=
  (ema (closeList df) EMA_SLOW).getD (df.length - 1) 0

/-- Previous slow EMA value. -/
def emaSprev (df : List Candle) : ℚ :=
  (ema (closeList df) EMA_SLOW).getD (df.length - 2) 0

/-- Current MACD histogram value. -/
def histNow (df : List Candle) : ℚ :=
  (macd_hist (closeList df)).getD (df.length - 1) 0

/-- Previous MACD histogram value. -/
def histPrev (df : List Candle) : ℚ :=
  (macd_hist (closeList df)).getD (df.length - 2) 0

/-- Current RSI value (line 234). -/
def rsiNow (df : List Candle) : FV :=
  (rsi (closeList df) RSI_LEN).getD (df.length - 1) FV.nan

/-- Current ATR value (line 235). -/
def atrNow (df : List Candle) : FV :=
  (atr df ATR_LEN).getD (df.length - 1) FV.nan

/-- Current ADX value (line 236). -/
def adxNow (df : List Candle) : FV :=
  (adx df ADX_LEN).getD (df.length - 1) FV.nan

/-- Current close price (line 237). -/
def priceNow (df : List Candle) : ℚ :=
  (closeList df).getD (df.length - 1) 0

/-- Line 240: `recent_atr = atr_val.dropna().tail(100)`. -/
def recentAtr (df : List Candle) : List FV :=
  let dropped := (atr df ATR_LEN).filter fun v => !v.isna
  dropped.drop (dropped.length - 100)

/-- Insertion step of the sort underlying the pandas quantile. -/
def insertFVle (x : FV) : List FV → List FV
  | [] => [x]
  | y :: ys => if FV.le x y then x :: y :: ys else y :: insertFVle x ys

/-- Ascending insertion sort on series values. -/
def sortFV (l : List FV) : List FV := l.foldr insertFVle []

/-- The pandas `Series.quantile(q)` with the default linear interpolation:
sort ascending, read position q*(n-1), interpolate between the two
neighbouring order statistics. -/
def quantileFV (l : List FV) (q : ℚ) : FV :=
  if l.length = 0 then FV.nan
  else
    let s := sortFV l
    let pos : ℚ := q * ((l.length : ℚ) - 1)
    let i : ℕ := pos.floor.toNat
    let frac : ℚ := pos - (i : ℚ)
    let lo := s.getD i FV.nan
    let hi := s.getD (i + 1) lo
    lo + FV.fin frac * (hi - lo)

/-- Lines 239-244: the ATR percentile filter rejects when at least 20
recent ATR values exist and the current ATR is strictly below their 20th
percentile. -/
def atrFilterRejects (df : List Candle) : Bool :=
  decide (20 ≤ (recentAtr df).length) &&
    FV.lt (atrNow df) (quantileFV (recentAtr df) (1 / 5))

/-- Line 255: ADX guard, `pd.isna(adx_now) or adx_now < ADX_MIN`. -/
def adxRejects (df : List Candle) : Bool :=
  (adxNow df).isna || FV.lt (adxNow df) (FV.fin ADX_MIN)

/-- Lines 260-262: price-extension guard,
`abs(price - ema_f_now) > 0.003 * price`. -/
def extRejects (df : List Candle) : Bool :=
  decide (|priceNow df - emaFnow df| > 3 / 1000 * priceNow df)

/-- Line 247: `trend_up = ema_f_now > ema_s_now`. -/
def trendUp (df : List Candle) : Bool := decide (emaFnow df > emaSnow df)

/-- Line 248: `trend_down = ema_f_now < ema_s_now`. -/
def trendDown (df : List Candle) : Bool := decide (emaFnow df < emaSnow df)

/-- Line 251: `macd_bull = hist_now > 0 and hist_now > hist_prev`. -/
def macdBull (df : List Candle) : Bool :=
  decide (histNow df > 0) && decide (histNow df > histPrev df)

/-- Line 252: `macd_bear = hist_now < 0 and hist_now < hist_prev`. -/
def macdBear (df : List Candle) : Bool :=
  decide (histNow df < 0) && decide (histNow df < histPrev df)

/-- Lines 265-270: the buy conjunction.  The chained Python comparison
`RSI_BUY_MIN <= rsi_now <= RSI_BUY_MAX` is two comparisons, each false
when rsi_now is NaN. -/
def buyCond (df : List Candle) : Bool :=
  trendUp df && macdBull df &&
    FV.le (FV.fin RSI_BUY_MIN) (rsiNow df) && FV.le (rsiNow df) (FV.fin RSI_BUY_MAX) &&
    cross_above (emaFnow df) (emaSnow df) (emaFprev df) (emaSprev df)

/-- Lines 272-277: the sell conjunction. -/
def sellCond (df : List Candle) : Bool :=
  trendDown df && macdBear df &&
    FV.le (FV.fin RSI_SELL_MIN) (rsiNow df) && FV.le (rsiNow df) (FV.fin RSI_SELL_MAX) &&
    cross_below (emaFnow df) (emaSnow df) (emaFprev df) (emaSprev df)

/-- Lines 217-281 of build_signal: the direction resolved for a frame,
before the duplicate-suppression gate.  Every early `return None` of the
source (warm-up guard, ATR percentile filter, ADX guard, extension guard)
resolves to none (HOLD). -/
def signalDirection (df : List Candle) : Option Direction :=
  if df.length < minBars then none
  else if atrFilterRejects df then none
  else if adxRejects df then none
  else if extRejects df then none
  else if buyCond df then some Direction.buy
  else if sellCond df then some Direction.sell
  else none

/-- Lines 214-321: build_signal for one pair, with the fetched frame
passed in and the per-pair stored direction (last_signal_dir[pair])
threaded explicitly.  Returns the emitted signal (if any) and the updated
stored direction.  Lines 283-286 suppress when the stored direction
equals the new one; line 304 updates the store only on emission. -/
def build_signal (pair : String) (df : List Candle) (prevDir : Option Direction) :
    Option Signal × Option Direction :=
  match signalDirection df with
  | none => (none, prevDir)
  | some d =>
    if prevDir = some d then (none, prevDir)
    else
      let price := priceNow df
      let risk := FV.fin ATR_SL_MULT * atrNow df
      match d with
      | Direction.buy =>
        (some { pair := pair, direction := d, price := FV.fin price,
                sl := FV.fin price - risk,
                tp1 := FV.fin price + risk * FV.fin TP1_MULT,
                tp2 := FV.fin price + risk * FV.fin TP2_MULT,
                tp3 := FV.fin price + risk * FV.fin TP3_MULT }, some d)
      | Direction.sell =>
        (some { pair := pair, direction := d, price := FV.fin price,
                sl := FV.fin price + risk,
                tp1 := FV.fin price - risk * FV.fin TP1_MULT,
                tp2 := FV.fin price - risk * FV.fin TP2_MULT,
                tp3 := FV.fin price - risk * FV.fin TP3_MULT }, some d)

/-- Outcome of processing one pair in the scan loop: either the caught
error (logged by line 357) or the optional emitted signal. -/
structure ScanOutcome where
  pair : String
  result : Except String (Option Signal)

/-- One iteration of the loop body, lines 349-357: fetch (the external
collaborator, modelled as a fallible function) and evaluate; an error is
caught and recorded, leaving the stored-direction state untouched. -/
def processPair (fetch : String → Except String (List Candle)) (pair : String)
    (st : String → Option Direction) :
    ScanOutcome × (String → Option Direction) :=
  match fetch pair with
  | Except.error e => (⟨pair, Except.error e⟩, st)
  | Except.ok df =>
    let r := build_signal pair df (st pair)
    (⟨pair, Except.ok r.1⟩, fun q => if q = pair then r.2 else st q)

/-- Lines 348-357: the scan loop over a batch, processing every pair and
catching per-pair failures. -/
def run_scan_batch (fetch : String → Except String (List Candle)) :
    List String → (String → Option Direction) →
      List ScanOutcome × (String → Option Direction)
  | [], st => ([], st)
  | p :: ps, st =>
    let r := processPair fetch p st
    let rest := run_scan_batch fetch ps r.2
    (r.1 :: rest.1, rest.2)

/-- Concrete 55-bar frame of degenerate-range candles (high = low = close)
whose closes decline gently and then oscillate upward; it passes every
filter of build_signal and resolves to BUY with RSI exactly 62 and ATR
exactly 0.0012 at the decision bar. -/
def dfBuyCloses : List ℤ :=
  [1000000, 999944, 999888, 999832, 999776, 999720, 999664, 999608, 999552,
   999496, 999440, 999384, 999328, 999272, 999216, 999160, 999104, 999048,
   998992, 998936, 998880, 998824, 998768, 998712, 998656, 998600, 998544,
   998488, 998432, 998376, 998320, 998264, 998208, 998152, 998096, 998040,
   997984, 997928, 997872, 997816, 997760, 996696, 995632, 994568, 995870,
   997172, 998474, 997410, 998712, 1000014, 998950, 1000252, 1001554,
   1000490, 1001792]

/-- Candle frame with high = low = close from a list of millionths. -/
def candlesOfCloses (l : List ℤ) : List Candle :=
  l.map fun k =>
    { high := (k : ℚ) / 1000000, low := (k : ℚ) / 1000000, close := (k : ℚ) / 1000000 }

/-- The BUY-resolving frame. -/
def dfBuy : List Candle := candlesOfCloses dfBuyCloses

/-- Mirror image of dfBuy about the price 1; it resolves to SELL (with RSI
exactly 38). -/
def dfSell : List Candle := candlesOfCloses (dfBuyCloses.map fun k => 2000000 - k)

/-- Closes of a frame on which EMA(9) crosses above EMA(21) at the last
bar while RSI(14) is exactly 62 and ATR(14) is exactly 0.0012 there, yet
the evaluator resolves no direction (its EMA(20)/EMA(50) trend and cross
conditions fail). -/
def dfCex6Closes : List ℤ :=
  [1000000, 999642, 999284, 998926, 998568, 998210, 997852, 997494, 997136,
   996778, 996420, 996062, 995704, 995346, 994988, 994630, 994272, 993914,
   993556, 993198, 992840, 992482, 992124, 991766, 991408, 991050, 990692,
   990334, 989976, 989618, 989260, 988902, 988544, 988186, 987828, 987470,
   987112, 986754, 986396, 986038, 985680, 984616, 983552, 982488, 983790,
   985092, 986394, 985330, 986632, 987934, 986870, 988172, 989474, 988410,
   989712]

/-- The EMA(9)/EMA(21)-cross frame. -/
def dfCex6 : List Candle := candlesOfCloses dfCex6Closes

/-- A frame with the same closes as dfBuy but malformed candles from bar
32 on (high = low = previous close, so the close lies outside the
high-low range): every true range of the last 23 bars is 0, hence ATR at
the decision bar is 0, while the close-driven conditions still resolve
BUY.  Demonstrates that the zero-ATR HOLD guarantee needs well-formed
candles. -/
def dfZero : List Candle :=
  (List.range 55).map fun i =>
    let c : ℚ := (dfBuyCloses.getD i 0 : ℚ) / 1000000
    if i < 32 then { high := c, low := c, close := c }
    else
      let pc : ℚ := (dfBuyCloses.getD (i - 1) 0 : ℚ) / 1000000
      { high := pc, low := pc, close := c }

/-!
Generic computation lemmas for the series-value arithmetic.
-/

theorem FV.le_nan_right (x : FV) : FV.le x FV.nan = false := by
  cases x <;> rfl

theorem FV.add_fin (a b : ℚ) : FV.fin a + FV.fin b = FV.fin (a + b) := rfl

theorem FV.sub_fin (a b : ℚ) : FV.fin a - FV.fin b = FV.fin (a - b) := by
  show FV.fin (a + -b) = FV.fin (a - b)
  rw [← sub_eq_add_neg]

theorem FV.mul_fin (a b : ℚ) : FV.fin a * FV.fin b = FV.fin (a * b) := rfl

theorem FV.div_fin (a b : ℚ) (hb : b ≠ 0) : FV.fin a / FV.fin b = FV.fin (a / b) := by
  show FV.div _ _ = _
  simp [FV.div, hb]

/-! Helper lemmas about the decision pipeline shared by several claims. -/

theorem signalDirection_short {df : List Candle} (h : df.length < minBars) :
    signalDirection df = none := by
  unfold signalDirection
  rw [if_pos h]

theorem build_signal_of_direction_none (pair : String) {df : List Candle}
    (st : Option Direction) (h : signalDirection df = none) :
    build_signal pair df st = (none, st) := by
  unfold build_signal
  rw [h]

theorem build_signal_suppressed (pair : String) {df : List Candle} {d : Direction}
    (h : signalDirection df = some d) :
    build_signal pair df (some d) = (none, some d) := by
  unfold build_signal
  rw [h]
  simp

theorem build_signal_emits (pair : String) {df : List Candle} {d : Direction}
    {prev : Option Direction} (h : signalDirection df = some d) (hp : prev ≠ some d) :
    (build_signal pair df prev).1.isSome = true ∧ (build_signal pair df prev).2 = some d := by
  unfold build_signal
  rw [h]
  cases d <;> simp [hp]

/-- C10: cross_above and cross_below are mutually exclusive on identical
arguments (both demand the current fast/slow comparison in opposite strict
directions), so the direction computed in lines 265-279 is uniquely
determined as BUY, SELL or none. -/
theorem C10_cross_exclusive (curr_fast curr_slow prev_fast prev_slow : ℚ) :
    (cross_above curr_fast curr_slow prev_fast prev_slow &&
      cross_below curr_fast curr_slow prev_fast prev_slow) = false := by
  by_cases h : curr_fast > curr_slow
  · have h2 : ¬(curr_fast < curr_slow) := by linarith
    simp [cross_below, h2]
  · simp [cross_above, h]

/-- C3: a frame shorter than the warm-up guard
max(EMA_SLOW, MACD_SLOW, RSI_LEN, ATR_LEN, ADX_LEN) + 5 resolves to HOLD
(no signal) and leaves the stored direction unchanged; the guard fires
before any indicator or iloc access, so no out-of-range indexing can
occur. -/
theorem C3_short_history_holds (pair : String) (df : List Candle)
    (st : Option Direction) (h : df.length < minBars) :
    build_signal pair df st = (none, st) :=
  build_signal_of_direction_none pair st (signalDirection_short h)

/-- Witness for C3 at the empty frame. -/
theorem C3_short_history_holds_witness :
    ([] : List Candle).length < minBars ∧
      build_signal "EURUSD" [] none = (none, none) :=
  ⟨by decide, C3_short_history_holds "EURUSD" [] none (by decide)⟩

/-- C8: the scan loop processes every pair of the batch, whatever the
fetch function does: an erroring pair is recorded as a caught error and
the loop continues, so the emitted outcome list covers the batch exactly,
for every fetch behaviour (including ones that fail on arbitrary
pairs). -/
theorem C8_scan_processes_all (fetch : String → Except String (List Candle))
    (batch : List String) (st : String → Option Direction) :
    ((run_scan_batch fetch batch st).1).map ScanOutcome.pair = batch := by
  induction batch generalizing st with
  | nil => rfl
  | cons p ps ih =>
    simp only [run_scan_batch, List.map_cons, ih, List.cons.injEq, and_true]
    cases hf : fetch p <;> simp [processPair, hf]

/-- C1 counterexample: the claim asserts that after an intervening HOLD a
subsequent BUY is emitted again.  On this concrete run (BUY frame, then a
frame resolving HOLD, then the BUY frame again, starting from empty state)
the final BUY is still suppressed, because a HOLD leaves the stored
direction untouched (lines 279-281 return before the store update of line
304). -/
theorem C1_counterexample :
    signalDirection dfBuy = some Direction.buy ∧
    signalDirection ([] : List Candle) = none ∧
    (build_signal "EURUSD" dfBuy
        ((build_signal "EURUSD" ([] : List Candle)
            ((build_signal "EURUSD" dfBuy none).2)).2)).1 = none := by
  refine ⟨by decide!, by decide, ?_⟩
  decide!

/-- C1 (amended): with consecutive evaluations resolving BUY, BUY the gate
emits exactly the first; after an intervening SELL a subsequent BUY is
emitted again; after an intervening HOLD the stored direction is
unchanged, so a subsequent BUY remains suppressed. -/
theorem C1_amended (pair : String) (d1 d2 dS dH : List Candle)
    (st0 : Option Direction) (h0 : st0 ≠ some Direction.buy)
    (h1 : signalDirection d1 = some Direction.buy)
    (h2 : signalDirection d2 = some Direction.buy)
    (hS : signalDirection dS = some Direction.sell)
    (hH : signalDirection dH = none) :
    ((build_signal pair d1 st0).1.isSome = true ∧
      (build_signal pair d2 (build_signal pair d1 st0).2).1 = none) ∧
    (build_signal pair d2
        (build_signal pair dS (build_signal pair d1 st0).2).2).1.isSome = true ∧
    (build_signal pair d2
        (build_signal pair dH (build_signal pair d1 st0).2).2).1 = none := by
  obtain ⟨e1, s1⟩ := build_signal_emits pair h1 h0
  refine ⟨⟨e1, ?_⟩, ?_, ?_⟩
  · rw [s1, build_signal_suppressed pair h2]
  · rw [s1]
    obtain ⟨eS, sS⟩ :=
      @build_signal_emits pair dS Direction.sell (some Direction.buy) hS (by simp)
    rw [sS]
    exact (@build_signal_emits pair d2 Direction.buy (some Direction.sell) h2 (by simp)).1
  · rw [s1, build_signal_of_direction_none pair (some Direction.buy) hH,
      build_signal_suppressed pair h2]

/-- Witness for C1 (amended) on the concrete BUY, SELL and HOLD frames. -/
theorem C1_amended_witness :
    ((build_signal "EURUSD" dfBuy none).1.isSome = true ∧
      (build_signal "EURUSD" dfBuy (build_signal "EURUSD" dfBuy none).2).1 = none) ∧
    (build_signal "EURUSD" dfBuy
        (build_signal "EURUSD" dfSell (build_signal "EURUSD" dfBuy none).2).2).1.isSome = true ∧
    (build_signal "EURUSD" dfBuy
        (build_signal "EURUSD" ([] : List Candle)
          (build_signal "EURUSD" dfBuy none).2).2).1 = none :=
  C1_amended "EURUSD" dfBuy dfBuy dfSell [] none (by simp)
    (by decide!) (by decide!) (by decide!) (by decide)

/-! Length and indexing lemmas for the series transforms. -/

theorem length_diffFV (s : List ℚ) : (diffFV s).length = s.length := by
  cases s <;> simp [diffFV]

theorem length_prevCloseList (cs : List Candle) :
    (prevCloseList cs).length = cs.length := by
  cases cs <;> simp [prevCloseList]

theorem length_trList (cs : List Candle) : (trList cs).length = cs.length := by
  simp [trList, length_prevCloseList]

theorem length_rollingMean (w : ℕ) (s : List FV) :
    (rollingMean w s).length = s.length := by
  simp [rollingMean]

theorem rollingMean_getD (w : ℕ) (s : List FV) (i : ℕ) (hi : i < s.length) :
    (rollingMean w s).getD i FV.nan =
      if i + 1 < w then FV.nan
      else FV.sumList ((s.take (i + 1)).drop (i + 1 - w)) / FV.fin (w : ℚ) := by
  rw [List.getD_eq_getElem _ _ (by rw [length_rollingMean]; exact hi)]
  simp [rollingMean]

theorem window_length (s : List FV) (w i : ℕ) (hi : i < s.length) (hw : w ≤ i + 1) :
    ((s.take (i + 1)).drop (i + 1 - w)).length = w := by
  simp only [List.length_drop, List.length_take]
  omega

theorem window_mem {s : List FV} {w i : ℕ} {x : FV}
    (hx : x ∈ (s.take (i + 1)).drop (i + 1 - w)) :
    ∃ j, i + 1 - w ≤ j ∧ j ≤ i ∧ ∃ hj : j < s.length, x = s[j] := by
  rw [List.mem_iff_getElem] at hx
  obtain ⟨k, hk, hkx⟩ := hx
  have hlen := hk
  simp only [List.length_drop, List.length_take] at hlen
  refine ⟨i + 1 - w + k, by omega, by omega, by omega, ?_⟩
  rw [← hkx, List.getElem_drop, List.getElem_take]

theorem window_getElem_mem {s : List FV} {w i j : ℕ}
    (hj1 : i + 1 - w ≤ j) (hj2 : j ≤ i) (hj : j < s.length) :
    s[j] ∈ (s.take (i + 1)).drop (i + 1 - w) := by
  rw [List.mem_iff_getElem]
  have hki : j - (i + 1 - w) < ((s.take (i + 1)).drop (i + 1 - w)).length := by
    simp only [List.length_drop, List.length_take]
    omega
  refine ⟨j - (i + 1 - w), hki, ?_⟩
  rw [List.getElem_drop, List.getElem_take]
  congr 1
  omega

/-! Sum lemmas for rolling windows. -/

theorem FV.add_nan_right (x : FV) : x + FV.nan = FV.nan := by
  cases x <;> rfl

theorem FV.div_nan_right (x : FV) : x / FV.nan = FV.nan := by
  cases x <;> rfl

theorem FV.sub_nan_right (x : FV) : x - FV.nan = FV.nan := by
  cases x <;> rfl

theorem foldl_add_nan (l : List FV) : l.foldl FV.add FV.nan = FV.nan := by
  induction l with
  | nil => rfl
  | cons x xs ih =>
    rw [List.foldl_cons, show FV.add FV.nan x = FV.nan from rfl]
    exact ih

theorem foldl_add_fin (l : List FV)
    (h : ∀ x ∈ l, ∃ q : ℚ, 0 ≤ q ∧ x = FV.fin q) :
    ∀ q0 : ℚ, ∃ r : ℚ, 0 ≤ r ∧ l.foldl FV.add (FV.fin q0) = FV.fin (q0 + r) := by
  induction l with
  | nil => exact fun q0 => ⟨0, le_refl 0, by simp⟩
  | cons x xs ih =>
    intro q0
    obtain ⟨q, hq, hx⟩ := h x (List.mem_cons_self x xs)
    obtain ⟨r, hr, hfold⟩ := ih (fun y hy => h y (List.mem_cons_of_mem x hy)) (q0 + q)
    refine ⟨q + r, by positivity, ?_⟩
    rw [List.foldl_cons, hx, show FV.add (FV.fin q0) (FV.fin q) = FV.fin (q0 + q) from rfl,
      hfold]
    congr 1
    ring

theorem foldl_add_fin_pos (l : List FV)
    (h : ∀ x ∈ l, ∃ q : ℚ, 0 < q ∧ x = FV.fin q) (hne : l ≠ []) (q0 : ℚ) :
    ∃ r : ℚ, 0 < r ∧ l.foldl FV.add (FV.fin q0) = FV.fin (q0 + r) := by
  cases l with
  | nil => exact absurd rfl hne
  | cons x xs =>
    obtain ⟨q, hq, hx⟩ := h x (List.mem_cons_self x xs)
    obtain ⟨r, hr, hfold⟩ :=
      foldl_add_fin xs
        (fun y hy => by
          obtain ⟨q2, hq2, hy2⟩ := h y (List.mem_cons_of_mem x hy)
          exact ⟨q2, le_of_lt hq2, hy2⟩) (q0 + q)
    refine ⟨q + r, by positivity, ?_⟩
    rw [List.foldl_cons, hx, show FV.add (FV.fin q0) (FV.fin q) = FV.fin (q0 + q) from rfl,
      hfold]
    congr 1
    ring

theorem foldl_add_zeros (l : List FV) (h : ∀ x ∈ l, x = FV.fin 0) :
    ∀ q0 : ℚ, l.foldl FV.add (FV.fin q0) = FV.fin q0 := by
  induction l with
  | nil => exact fun _ => rfl
  | cons x xs ih =>
    intro q0
    rw [List.foldl_cons, h x (List.mem_cons_self x xs),
      show FV.add (FV.fin q0) (FV.fin 0) = FV.fin (q0 + 0) from rfl, add_zero]
    exact ih (fun y hy => h y (List.mem_cons_of_mem x hy)) q0

theorem foldl_add_eq_fin_zero (l : List FV)
    (h : ∀ x ∈ l, ∃ q : ℚ, 0 ≤ q ∧ x = FV.fin q) :
    ∀ q0 : ℚ, 0 ≤ q0 → l.foldl FV.add (FV.fin q0) = FV.fin 0 →
      ∀ x ∈ l, x = FV.fin 0 := by
  induction l with
  | nil => intro q0 h0 hz x hx; simp at hx
  | cons x xs ih =>
    intro q0 h0 hz y hy
    obtain ⟨q, hq, hx⟩ := h x (List.mem_cons_self x xs)
    have hxs : ∀ z ∈ xs, ∃ q2 : ℚ, 0 ≤ q2 ∧ z = FV.fin q2 :=
      fun z hz2 => h z (List.mem_cons_of_mem x hz2)
    rw [List.foldl_cons, hx,
      show FV.add (FV.fin q0) (FV.fin q) = FV.fin (q0 + q) from rfl] at hz
    obtain ⟨r, hr, hfold⟩ := foldl_add_fin xs hxs (q0 + q)
    have hsum : q0 + q + r = 0 := by
      rw [hfold] at hz
      simpa using hz
    have hqz : q = 0 := by linarith
    rcases List.mem_cons.mp hy with h1 | h2
    · rw [h1, hx, hqz]
    · exact ih hxs (q0 + q) (by positivity) hz y h2

theorem foldl_add_cases (l : List FV)
    (h : ∀ x ∈ l, x = FV.nan ∨ ∃ q : ℚ, 0 ≤ q ∧ x = FV.fin q) :
    ∀ q0 : ℚ, 0 ≤ q0 →
      l.foldl FV.add (FV.fin q0) = FV.nan ∨
        ∃ r : ℚ, 0 ≤ r ∧ l.foldl FV.add (FV.fin q0) = FV.fin r := by
  induction l with
  | nil => exact fun q0 h0 => Or.inr ⟨q0, h0, rfl⟩
  | cons x xs ih =>
    intro q0 h0
    rcases h x (List.mem_cons_self x xs) with hx | ⟨q, hq, hx⟩
    · rw [List.foldl_cons, hx, show FV.add (FV.fin q0) FV.nan = FV.nan from rfl]
      exact Or.inl (foldl_add_nan xs)
    · rw [List.foldl_cons, hx, show FV.add (FV.fin q0) (FV.fin q) = FV.fin (q0 + q) from rfl]
      exact ih (fun y hy => h y (List.mem_cons_of_mem x hy)) (q0 + q) (by positivity)

theorem rollingMean_getD_cases (w : ℕ) (s : List FV) (i : ℕ)
    (h : ∀ x ∈ s, x = FV.nan ∨ ∃ q : ℚ, 0 ≤ q ∧ x = FV.fin q) :
    (rollingMean w s).getD i FV.nan = FV.nan ∨
      ∃ q : ℚ, 0 ≤ q ∧ (rollingMean w s).getD i FV.nan = FV.fin q := by
  by_cases hi : i < s.length
  · rw [rollingMean_getD w s i hi]
    by_cases hiw : i + 1 < w
    · simp [hiw]
    · rw [if_neg hiw]
      have hwin : ∀ x ∈ (s.take (i + 1)).drop (i + 1 - w),
          x = FV.nan ∨ ∃ q : ℚ, 0 ≤ q ∧ x = FV.fin q :=
        fun x hx => h x (List.mem_of_mem_take (List.mem_of_mem_drop hx))
      rcases foldl_add_cases _ hwin 0 le_rfl with hc | ⟨r, hr, hc⟩
      · left
        unfold FV.sumList
        rw [hc]
        rfl
      · unfold FV.sumList
        rw [hc]
        by_cases hw0 : w = 0
        · left
          subst hw0
          have he : (s.take (i + 1)).drop (i + 1 - 0) = [] :=
            List.drop_eq_nil_of_le (by simp [List.length_take])
          rw [he] at hc
          have hr0 : r = 0 := by simpa using hc.symm
          subst hr0
          show FV.div _ _ = _
          simp [FV.div]
        · right
          have hwq : ((w : ℚ)) ≠ 0 := by
            simpa using hw0
          rw [FV.div_fin r w hwq]
          exact ⟨r / w, by positivity, rfl⟩
  · rw [List.getD_eq_default _ _ (by rw [length_rollingMean]; omega)]
    exact Or.inl rfl

/-! Element shape lemmas for the RSI pipeline. -/

theorem diffFV_mem_cases (s : List ℚ) :
    ∀ v ∈ diffFV s, v = FV.nan ∨ ∃ q : ℚ, v = FV.fin q := by
  cases s with
  | nil => simp [diffFV]
  | cons x xs =>
    intro v hv
    simp only [diffFV, List.mem_cons] at hv
    rcases hv with h | h
    · exact Or.inl h
    · right
      rw [List.mem_iff_getElem] at h
      obtain ⟨k, hk, hkv⟩ := h
      rw [List.getElem_zipWith] at hkv
      exact ⟨_, hkv.symm⟩

theorem diffFV_getElem_succ (s : List ℚ) (j : ℕ) (hj : j + 1 < s.length)
    (hd : j + 1 < (diffFV s).length) :
    (diffFV s)[j + 1] = FV.fin (s[j + 1] - s[j]) := by
  cases s with
  | nil => simp at hj
  | cons x xs =>
    simp only [diffFV, List.getElem_cons_succ]
    rw [List.getElem_zipWith]

theorem gain_mem_cases (s : List ℚ) :
    ∀ x ∈ (diffFV s).map (FV.clipLower 0),
      x = FV.nan ∨ ∃ q : ℚ, 0 ≤ q ∧ x = FV.fin q := by
  intro x hx
  rw [List.mem_map] at hx
  obtain ⟨v, hv, hvx⟩ := hx
  rcases diffFV_mem_cases s v hv with h | ⟨q, h⟩
  · subst h
    exact Or.inl (hvx ▸ rfl)
  · subst h
    exact Or.inr ⟨max q 0, le_max_right q 0, hvx ▸ rfl⟩

theorem loss_mem_cases (s : List ℚ) :
    ∀ x ∈ ((diffFV s).map (FV.clipUpper 0)).map FV.neg,
      x = FV.nan ∨ ∃ q : ℚ, 0 ≤ q ∧ x = FV.fin q := by
  intro x hx
  rw [List.mem_map] at hx
  obtain ⟨u, hu, hux⟩ := hx
  rw [List.mem_map] at hu
  obtain ⟨v, hv, hvu⟩ := hu
  rcases diffFV_mem_cases s v hv with h | ⟨q, h⟩
  · subst h
    left
    rw [← hux, ← hvu]
    rfl
  · subst h
    right
    refine ⟨-(min q 0), by simp, ?_⟩
    rw [← hux, ← hvu]
    rfl

theorem length_rsi (s : List ℚ) (w : ℕ) : (rsi s w).length = s.length := by
  simp [rsi, length_rollingMean, length_diffFV]

theorem rsi_getD (s : List ℚ) (w : ℕ) (i : ℕ) (hi : i < s.length) :
    (rsi s w).getD i FV.nan =
      FV.fin 100 - FV.fin 100 / (FV.fin 1 +
        (rollingMean w ((diffFV s).map (FV.clipLower 0))).getD i FV.nan /
          (rollingMean w (((diffFV s).map (FV.clipUpper 0)).map FV.neg)).getD i
            FV.nan) := by
  have hg : i < (rollingMean w ((diffFV s).map (FV.clipLower 0))).length := by
    simp [length_rollingMean, length_diffFV]
    exact hi
  have hl : i <
      (rollingMean w (((diffFV s).map (FV.clipUpper 0)).map FV.neg)).length := by
    simp [length_rollingMean, length_diffFV]
    exact hi
  rw [List.getD_eq_getElem _ _ (by rw [length_rsi]; exact hi)]
  simp only [rsi]
  rw [List.getElem_zipWith]
  rw [List.getD_eq_getElem _ _ hg, List.getD_eq_getElem _ _ hl]

theorem rsi_formula_bounds (g l : FV)
    (hg : g = FV.nan ∨ ∃ a : ℚ, 0 ≤ a ∧ g = FV.fin a)
    (hl : l = FV.nan ∨ ∃ b : ℚ, 0 ≤ b ∧ l = FV.fin b) (q : ℚ)
    (h : FV.fin 100 - FV.fin 100 / (FV.fin 1 + g / l) = FV.fin q) :
    0 ≤ q ∧ q ≤ 100 := by
  rcases hg with hg | ⟨a, ha, hg⟩
  · subst hg
    rw [show (FV.nan / l : FV) = FV.nan from rfl, FV.add_nan_right, FV.div_nan_right,
      FV.sub_nan_right] at h
    exact absurd h (by simp)
  rcases hl with hl | ⟨b, hb, hl⟩
  · subst hl
    rw [hg, FV.div_nan_right, FV.add_nan_right, FV.div_nan_right, FV.sub_nan_right] at h
    exact absurd h (by simp)
  subst hg
  subst hl
  by_cases hb0 : b = 0
  · subst hb0
    by_cases ha0 : a = 0
    · subst ha0
      rw [show (FV.fin 0 / FV.fin 0 : FV) = FV.nan from by
          show FV.div _ _ = _
          simp [FV.div], FV.add_nan_right, FV.div_nan_right, FV.sub_nan_right] at h
      exact absurd h (by simp)
    · have hapos : 0 < a := lt_of_le_of_ne ha (Ne.symm ha0)
      rw [show (FV.fin a / FV.fin 0 : FV) = FV.inf true from by
          show FV.div _ _ = _
          simp [FV.div, ha0, hapos],
        show (FV.fin 1 + FV.inf true : FV) = FV.inf true from rfl,
        show (FV.fin 100 / FV.inf true : FV) = FV.fin 0 from rfl,
        show (FV.fin 100 - FV.fin 0 : FV) = FV.fin 100 from by
          rw [FV.sub_fin]
          norm_num] at h
      have : q = 100 := by simpa using h.symm
      subst this
      norm_num
  · rw [FV.div_fin a b hb0,
      show (FV.fin 1 + FV.fin (a / b) : FV) = FV.fin (1 + a / b) from rfl] at h
    have habpos : (0 : ℚ) < 1 + a / b := by positivity
    rw [FV.div_fin 100 _ (ne_of_gt habpos), FV.sub_fin] at h
    have hq : q = 100 - 100 / (1 + a / b) := by simpa using h.symm
    subst hq
    constructor
    · have h1 : 100 / (1 + a / b) ≤ 100 :=
        div_le_self (by norm_num) (by nlinarith [div_nonneg ha hb])
      linarith
    · have h2 : 0 < 100 / (1 + a / b) := by positivity
      linarith

/-- C4: the RSI computation is total: the divide-by-zero cases of
rs = avg_gain/avg_loss produce NaN (0/0) or a clamped 100 (gain/0 with
positive gain), never an error; every finite RSI value lies in [0, 100];
and on a strictly increasing close sequence every post-warm-up RSI value
is exactly 100 (so it reaches its approach point 100 and never exceeds
100 or falls below 0). -/
theorem C4_rsi_safe :
    (∀ (s : List ℚ) (w i : ℕ) (q : ℚ),
        (rsi s w).getD i FV.nan = FV.fin q → 0 ≤ q ∧ q ≤ 100) ∧
    ∀ s : List ℚ, List.Pairwise (· < ·) s →
      ∀ i, RSI_LEN ≤ i → i < s.length →
        (rsi s RSI_LEN).getD i FV.nan = FV.fin 100 := by
  constructor
  · intro s w i q h
    by_cases hi : i < s.length
    · rw [rsi_getD s w i hi] at h
      exact rsi_formula_bounds _ _
        (rollingMean_getD_cases w _ i (gain_mem_cases s))
        (rollingMean_getD_cases w _ i (loss_mem_cases s)) q h
    · rw [List.getD_eq_default _ _ (by rw [length_rsi]; omega)] at h
      exact absurd h (by simp)
  · intro s hmono i hi14 hilen
    have hRL : RSI_LEN = 14 := rfl
    rw [hRL] at hi14
    rw [rsi_getD s RSI_LEN i hilen, hRL]
    have hmono2 := List.pairwise_iff_getElem.mp hmono
    have hlen_gain : ((diffFV s).map (FV.clipLower 0)).length = s.length := by
      simp [length_diffFV]
    have hlen_loss :
        (((diffFV s).map (FV.clipUpper 0)).map FV.neg).length = s.length := by
      simp [length_diffFV]
    have hL :
        (rollingMean 14 (((diffFV s).map (FV.clipUpper 0)).map FV.neg)).getD i
          FV.nan = FV.fin 0 := by
      rw [rollingMean_getD _ _ i (by rw [hlen_loss]; exact hilen), if_neg (by omega)]
      have hwin : ∀ x ∈ ((((diffFV s).map (FV.clipUpper 0)).map FV.neg).take
          (i + 1)).drop (i + 1 - 14), x = FV.fin 0 := by
        intro x hx
        obtain ⟨j, hj1, hj2, hj, hxj⟩ := window_mem hx
        rw [hlen_loss] at hj
        obtain ⟨j2, rfl⟩ : ∃ j2, j = j2 + 1 := ⟨j - 1, by omega⟩
        subst hxj
        rw [List.getElem_map, List.getElem_map,
          diffFV_getElem_succ s j2 (by omega) (by rw [length_diffFV]; omega)]
        have hdelta : 0 < s[j2 + 1] - s[j2] := by
          have := hmono2 j2 (j2 + 1) (by omega) (by omega) (by omega)
          linarith
        show FV.neg (FV.clipUpper 0 _) = _
        simp only [FV.clipUpper]
        rw [min_eq_right (le_of_lt hdelta)]
        show FV.fin (-0) = FV.fin 0
        norm_num
      unfold FV.sumList
      rw [foldl_add_zeros _ hwin 0, FV.div_fin 0 _ (by norm_num)]
      norm_num
    have hG : ∃ g : ℚ, 0 < g ∧
        (rollingMean 14 ((diffFV s).map (FV.clipLower 0))).getD i FV.nan =
          FV.fin g := by
      rw [rollingMean_getD _ _ i (by rw [hlen_gain]; exact hilen), if_neg (by omega)]
      have hwin : ∀ x ∈ (((diffFV s).map (FV.clipLower 0)).take (i + 1)).drop
          (i + 1 - 14), ∃ q : ℚ, 0 < q ∧ x = FV.fin q := by
        intro x hx
        obtain ⟨j, hj1, hj2, hj, hxj⟩ := window_mem hx
        rw [hlen_gain] at hj
        obtain ⟨j2, rfl⟩ : ∃ j2, j = j2 + 1 := ⟨j - 1, by omega⟩
        subst hxj
        rw [List.getElem_map,
          diffFV_getElem_succ s j2 (by omega) (by rw [length_diffFV]; omega)]
        have hdelta : 0 < s[j2 + 1] - s[j2] := by
          have := hmono2 j2 (j2 + 1) (by omega) (by omega) (by omega)
          linarith
        refine ⟨s[j2 + 1] - s[j2], hdelta, ?_⟩
        show FV.clipLower 0 _ = _
        simp only [FV.clipLower]
        rw [max_eq_left (le_of_lt hdelta)]
      have hne : (((diffFV s).map (FV.clipLower 0)).take (i + 1)).drop
          (i + 1 - 14) ≠ [] := by
        have hwl := window_length ((diffFV s).map (FV.clipLower 0)) 14 i
          (by rw [hlen_gain]; exact hilen) (by omega)
        intro hcon
        rw [hcon] at hwl
        simp at hwl
      obtain ⟨r, hr, hfold⟩ := foldl_add_fin_pos _ hwin hne 0
      rw [zero_add] at hfold
      refine ⟨r / ((14 : ℕ) : ℚ), div_pos hr (by norm_num), ?_⟩
      unfold FV.sumList
      rw [hfold, FV.div_fin r _ (by norm_num)]
    obtain ⟨g, hgpos, hGv⟩ := hG
    rw [hGv, hL]
    rw [show (FV.fin g / FV.fin 0 : FV) = FV.inf true from by
        show FV.div _ _ = _
        simp [FV.div, ne_of_gt hgpos, hgpos],
      show (FV.fin 1 + FV.inf true : FV) = FV.inf true from rfl,
      show (FV.fin 100 / FV.inf true : FV) = FV.fin 0 from rfl,
      show (FV.fin 100 - FV.fin 0 : FV) = FV.fin 100 from by
        rw [FV.sub_fin]
        norm_num]

/-- Witness for C4: the finite-value bound applied at the concrete BUY
frame (whose RSI is exactly 62), and the strictly-increasing clause
applied at an increasing 16-element series, where RSI is exactly 100. -/
theorem C4_rsi_safe_witness :
    ((0 : ℚ) ≤ 62 ∧ (62 : ℚ) ≤ 100) ∧
      (rsi [1, 2, 3, 4, 5, 6, 7, 8, 9, 10, 11, 12, 13, 14, 15, 16] RSI_LEN).getD 15
        FV.nan = FV.fin 100 :=
  ⟨C4_rsi_safe.1 (closeList dfBuy) RSI_LEN 54 62 (by decide!),
    C4_rsi_safe.2 [1, 2, 3, 4, 5, 6, 7, 8, 9, 10, 11, 12, 13, 14, 15, 16]
      (by decide) 15 (by decide) (by decide)⟩

/-! Lemmas for the ADX pipeline. -/

theorem FV.mul_nan_right (x : FV) : x * FV.nan = FV.nan := by
  cases x <;> rfl

theorem FV.mul_fin_inf (q : ℚ) (b : Bool) (hq : 0 < q) :
    FV.fin q * FV.inf b = FV.inf b := by
  show FV.mul _ _ = _
  simp [FV.mul, hq, ne_of_gt hq]

theorem FV.fin_div_zero (a : ℚ) : FV.fin a / FV.fin 0 =
    if a = 0 then FV.nan else if 0 < a then FV.inf true else FV.inf false := by
  show FV.div _ _ = _
  simp [FV.div]

theorem length_shiftOne (s : List FV) : (shiftOne s).length = s.length := by
  cases s <;> simp [shiftOne]

theorem shiftOne_getElem_zero (t : List FV) (h : 0 < t.length)
    (hs : 0 < (shiftOne t).length) :
    (shiftOne t)[0] = FV.nan := by
  cases t with
  | nil => simp at h
  | cons x xs => rfl

theorem shiftOne_getElem_succ (t : List FV) (k : ℕ) (h : k + 1 < t.length)
    (hs : k + 1 < (shiftOne t).length) :
    (shiftOne t)[k + 1] = t[k] := by
  cases t with
  | nil => simp at h
  | cons x xs =>
    simp only [shiftOne, List.getElem_cons_succ]
    rw [List.getElem_dropLast]

theorem length_highsFV (cs : List Candle) : (highsFV cs).length = cs.length := by
  simp [highsFV]

theorem length_lowsFV (cs : List Candle) : (lowsFV cs).length = cs.length := by
  simp [lowsFV]

theorem length_adxPlusDMraw (cs : List Candle) :
    (adxPlusDMraw cs).length = cs.length := by
  simp [adxPlusDMraw, length_shiftOne, length_highsFV]

theorem length_adxMinusDMraw (cs : List Candle) :
    (adxMinusDMraw cs).length = cs.length := by
  simp [adxMinusDMraw, length_shiftOne, length_lowsFV]

theorem length_adxPlusDM (cs : List Candle) : (adxPlusDM cs).length = cs.length := by
  simp [adxPlusDM, length_adxPlusDMraw, length_adxMinusDMraw]

theorem length_adxMinusDM (cs : List Candle) :
    (adxMinusDM cs).length = cs.length := by
  simp [adxMinusDM, length_adxPlusDM, length_adxMinusDMraw]

theorem length_atr (cs : List Candle) (len : ℕ) : (atr cs len).length = cs.length := by
  simp [atr, length_rollingMean, length_trList]

theorem length_adxPlusDI (cs : List Candle) (len : ℕ) :
    (adxPlusDI cs len).length = cs.length := by
  simp [adxPlusDI, length_rollingMean, length_adxPlusDM, length_atr]

theorem length_adxMinusDI (cs : List Candle) (len : ℕ) :
    (adxMinusDI cs len).length = cs.length := by
  simp [adxMinusDI, length_rollingMean, length_adxMinusDM, length_atr]

theorem length_adxDX (cs : List Candle) (len : ℕ) :
    (adxDX cs len).length = cs.length := by
  simp [adxDX, length_adxPlusDI, length_adxMinusDI]

theorem highsFV_getElem (cs : List Candle) (k : ℕ) (hk : k < cs.length)
    (hh : k < (highsFV cs).length) :
    (highsFV cs)[k] = FV.fin (cs[k].high) := by
  simp [highsFV]

theorem lowsFV_getElem (cs : List Candle) (k : ℕ) (hk : k < cs.length)
    (hh : k < (lowsFV cs).length) :
    (lowsFV cs)[k] = FV.fin (cs[k].low) := by
  simp [lowsFV]

theorem adxPlusDMraw_mem (cs : List Candle) :
    ∀ y ∈ adxPlusDMraw cs, y = FV.nan ∨ ∃ q : ℚ, 0 ≤ q ∧ y = FV.fin q := by
  intro y hy
  rw [List.mem_iff_getElem] at hy
  obtain ⟨k, hk, hky⟩ := hy
  rw [length_adxPlusDMraw] at hk
  simp only [adxPlusDMraw] at hky
  rw [List.getElem_zipWith,
    highsFV_getElem cs k hk (by rw [length_highsFV]; omega)] at hky
  cases k with
  | zero =>
    rw [shiftOne_getElem_zero (highsFV cs) (by rw [length_highsFV]; omega)
      (by rw [length_shiftOne, length_highsFV]; omega)] at hky
    left
    rw [← hky]
    rfl
  | succ k2 =>
    rw [shiftOne_getElem_succ (highsFV cs) k2 (by rw [length_highsFV]; omega)
        (by rw [length_shiftOne, length_highsFV]; omega),
      highsFV_getElem cs k2 (by omega) (by rw [length_highsFV]; omega),
      FV.sub_fin] at hky
    right
    refine ⟨max (cs[k2 + 1].high - cs[k2].high) 0, le_max_right _ 0, ?_⟩
    rw [← hky]
    rfl

theorem adxMinusDMraw_mem (cs : List Candle) :
    ∀ y ∈ adxMinusDMraw cs, y = FV.nan ∨ ∃ q : ℚ, 0 ≤ q ∧ y = FV.fin q := by
  intro y hy
  rw [List.mem_iff_getElem] at hy
  obtain ⟨k, hk, hky⟩ := hy
  rw [length_adxMinusDMraw] at hk
  simp only [adxMinusDMraw] at hky
  rw [List.getElem_zipWith,
    lowsFV_getElem cs k hk (by rw [length_lowsFV]; omega)] at hky
  cases k with
  | zero =>
    rw [shiftOne_getElem_zero (lowsFV cs) (by rw [length_lowsFV]; omega)
      (by rw [length_shiftOne, length_lowsFV]; omega)] at hky
    left
    rw [← hky]
    rfl
  | succ k2 =>
    rw [shiftOne_getElem_succ (lowsFV cs) k2 (by rw [length_lowsFV]; omega)
        (by rw [length_shiftOne, length_lowsFV]; omega),
      lowsFV_getElem cs k2 (by omega) (by rw [length_lowsFV]; omega),
      FV.sub_fin] at hky
    right
    refine ⟨max (cs[k2].low - cs[k2 + 1].low) 0, le_max_right _ 0, ?_⟩
    rw [← hky]
    rfl

theorem adxPlusDM_mem (cs : List Candle) :
    ∀ x ∈ adxPlusDM cs, ∃ q : ℚ, 0 ≤ q ∧ x = FV.fin q := by
  intro x hx
  rw [List.mem_iff_getElem] at hx
  obtain ⟨k, hk, hkx⟩ := hx
  rw [length_adxPlusDM] at hk
  have hkp : k < (adxPlusDMraw cs).length := by
    rw [length_adxPlusDMraw]
    exact hk
  have hkm : k < (adxMinusDMraw cs).length := by
    rw [length_adxMinusDMraw]
    exact hk
  simp only [adxPlusDM] at hkx
  rw [List.getElem_zipWith] at hkx
  by_cases hlt : FV.lt ((adxMinusDMraw cs)[k]) ((adxPlusDMraw cs)[k])
  · rw [if_pos hlt] at hkx
    rcases adxPlusDMraw_mem cs ((adxPlusDMraw cs)[k]) (List.getElem_mem _) with
      hnan | ⟨q, hq, hfin⟩
    · rw [hnan] at hlt
      rw [show FV.lt ((adxMinusDMraw cs)[k]) FV.nan = false from by
        generalize (adxMinusDMraw cs)[k] = z
        cases z <;> rfl] at hlt
      exact absurd hlt (by simp)
    · exact ⟨q, hq, by rw [← hkx, hfin]⟩
  · rw [if_neg hlt] at hkx
    exact ⟨0, le_refl 0, hkx.symm⟩

theorem adxMinusDM_mem (cs : List Candle) :
    ∀ x ∈ adxMinusDM cs, ∃ q : ℚ, 0 ≤ q ∧ x = FV.fin q := by
  intro x hx
  rw [List.mem_iff_getElem] at hx
  obtain ⟨k, hk, hkx⟩ := hx
  rw [length_adxMinusDM] at hk
  have hkm : k < (adxMinusDMraw cs).length := by
    rw [length_adxMinusDMraw]
    exact hk
  have hkp : k < (adxPlusDM cs).length := by
    rw [length_adxPlusDM]
    exact hk
  simp only [adxMinusDM] at hkx
  rw [List.getElem_zipWith] at hkx
  by_cases hlt : FV.lt ((adxPlusDM cs)[k]) ((adxMinusDMraw cs)[k])
  · rw [if_pos hlt] at hkx
    rcases adxMinusDMraw_mem cs ((adxMinusDMraw cs)[k]) (List.getElem_mem _) with
      hnan | ⟨q, hq, hfin⟩
    · rw [hnan] at hlt
      rw [show FV.lt ((adxPlusDM cs)[k]) FV.nan = false from by
        generalize (adxPlusDM cs)[k] = z
        cases z <;> rfl] at hlt
      exact absurd hlt (by simp)
    · exact ⟨q, hq, by rw [← hkx, hfin]⟩
  · rw [if_neg hlt] at hkx
    exact ⟨0, le_refl 0, hkx.symm⟩

theorem adxPlusDI_getD (cs : List Candle) (len i : ℕ) (hi : i < cs.length) :
    (adxPlusDI cs len).getD i FV.nan =
      FV.fin 100 * ((rollingMean len (adxPlusDM cs)).getD i FV.nan /
        (atr cs len).getD i FV.nan) := by
  rw [List.getD_eq_getElem _ _ (by rw [length_adxPlusDI]; exact hi)]
  unfold adxPlusDI
  rw [List.getElem_zipWith,
    List.getD_eq_getElem _ _ (by rw [length_rollingMean, length_adxPlusDM]; exact hi),
    List.getD_eq_getElem _ _ (by rw [length_atr]; exact hi)]

theorem adxMinusDI_getD (cs : List Candle) (len i : ℕ) (hi : i < cs.length) :
    (adxMinusDI cs len).getD i FV.nan =
      FV.fin 100 * ((rollingMean len (adxMinusDM cs)).getD i FV.nan /
        (atr cs len).getD i FV.nan) := by
  rw [List.getD_eq_getElem _ _ (by rw [length_adxMinusDI]; exact hi)]
  unfold adxMinusDI
  rw [List.getElem_zipWith,
    List.getD_eq_getElem _ _ (by rw [length_rollingMean, length_adxMinusDM]; exact hi),
    List.getD_eq_getElem _ _ (by rw [length_atr]; exact hi)]

theorem adxDX_getD (cs : List Candle) (len i : ℕ) (hi : i < cs.length) :
    (adxDX cs len).getD i FV.nan =
      replaceNA (((adxPlusDI cs len).getD i FV.nan -
          (adxMinusDI cs len).getD i FV.nan).abs /
        ((adxPlusDI cs len).getD i FV.nan + (adxMinusDI cs len).getD i FV.nan)) *
        FV.fin 100 := by
  rw [List.getD_eq_getElem _ _ (by rw [length_adxDX]; exact hi)]
  unfold adxDX
  rw [List.getElem_zipWith,
    List.getD_eq_getElem _ _ (by rw [length_adxPlusDI]; exact hi),
    List.getD_eq_getElem _ _ (by rw [length_adxMinusDI]; exact hi)]

theorem di_components_zero (G L a : FV)
    (hG : G = FV.nan ∨ ∃ g : ℚ, 0 ≤ g ∧ G = FV.fin g)
    (hL : L = FV.nan ∨ ∃ l2 : ℚ, 0 ≤ l2 ∧ L = FV.fin l2)
    (h : FV.fin 100 * (G / a) + FV.fin 100 * (L / a) = FV.fin 0) :
    FV.fin 100 * (G / a) = FV.fin 0 ∧ FV.fin 100 * (L / a) = FV.fin 0 := by
  rcases hG with hG | ⟨g, hg, hG⟩
  · rw [hG, show (FV.nan / a : FV) = FV.nan from rfl, FV.mul_nan_right,
      show (FV.nan + FV.fin 100 * (L / a) : FV) = FV.nan from rfl] at h
    exact absurd h (by simp)
  rcases hL with hL | ⟨l2, hl2, hL⟩
  · rw [hL, show (FV.nan / a : FV) = FV.nan from rfl, FV.mul_nan_right,
      FV.add_nan_right] at h
    exact absurd h (by simp)
  subst hG
  subst hL
  cases a with
  | nan =>
    rw [show (FV.fin g / FV.nan : FV) = FV.nan from rfl, FV.mul_nan_right,
      show (FV.nan + FV.fin 100 * (FV.fin l2 / FV.nan) : FV) = FV.nan from rfl] at h
    exact absurd h (by simp)
  | inf b =>
    constructor <;>
      · rw [show ∀ q : ℚ, (FV.fin q / FV.inf b : FV) = FV.fin 0 from fun q => rfl]
        rw [FV.mul_fin]
        norm_num
  | fin α =>
    by_cases hα : α = 0
    · subst hα
      exfalso
      rw [FV.fin_div_zero g, FV.fin_div_zero l2] at h
      by_cases hg0 : g = 0
      · rw [if_pos hg0, FV.mul_nan_right,
          show (FV.nan + FV.fin 100 * (if l2 = 0 then FV.nan
            else if 0 < l2 then FV.inf true else FV.inf false) : FV) = FV.nan from
          rfl] at h
        exact absurd h (by simp)
      · have hgpos : 0 < g := lt_of_le_of_ne hg (Ne.symm hg0)
        rw [if_neg hg0, if_pos hgpos, FV.mul_fin_inf 100 true (by norm_num)] at h
        by_cases hl0 : l2 = 0
        · rw [if_pos hl0, FV.mul_nan_right, FV.add_nan_right] at h
          exact absurd h (by simp)
        · have hlpos : 0 < l2 := lt_of_le_of_ne hl2 (Ne.symm hl0)
          rw [if_neg hl0, if_pos hlpos, FV.mul_fin_inf 100 true (by norm_num),
            show (FV.inf true + FV.inf true : FV) = FV.inf true from by
              show FV.add _ _ = _
              simp [FV.add]] at h
          exact absurd h (by simp)
    · rw [FV.div_fin g α hα, FV.div_fin l2 α hα, FV.mul_fin, FV.mul_fin,
        FV.add_fin] at h
      have hsum : 100 * (g / α) + 100 * (l2 / α) = 0 := by simpa using h
      have hgl : g + l2 = 0 := by
        have hαne : α ≠ 0 := hα
        field_simp [hαne] at hsum
        linarith
      have hg0 : g = 0 := by linarith
      have hl0 : l2 = 0 := by linarith
      subst hg0
      subst hl0
      rw [FV.div_fin 0 α hα, FV.mul_fin]
      norm_num

/-- C9: whenever the DI+ + DI- denominator of the DX expression is zero at
an index, the DX value at that index is 0: the division yields NaN
(0/0, since both DI values must then be 0), and the replace step of line
152 maps it to 0 before the final scaling. -/
theorem C9_dx_zero_on_zero_denominator (cs : List Candle) (len i : ℕ)
    (h : (adxPlusDI cs len).getD i FV.nan + (adxMinusDI cs len).getD i FV.nan =
      FV.fin 0) :
    (adxDX cs len).getD i FV.nan = FV.fin 0 := by
  by_cases hi : i < cs.length
  · have hP := adxPlusDI_getD cs len i hi
    have hM := adxMinusDI_getD cs len i hi
    rw [hP, hM] at h
    have hcomp := di_components_zero _ _ _
      (rollingMean_getD_cases len (adxPlusDM cs) i (fun x hx =>
        Or.inr (adxPlusDM_mem cs x hx)))
      (rollingMean_getD_cases len (adxMinusDM cs) i (fun x hx =>
        Or.inr (adxMinusDM_mem cs x hx)))
      h
    rw [adxDX_getD cs len i hi, hP, hM, hcomp.1, hcomp.2]
    decide!
  · exfalso
    rw [List.getD_eq_default _ _ (by rw [length_adxPlusDI]; omega),
      List.getD_eq_default _ _ (by rw [length_adxMinusDI]; omega),
      show (FV.nan + FV.nan : FV) = FV.nan from rfl] at h
    exact absurd h (by simp)

/-- A 20-bar frame of identical candles with a genuine high-low range:
there is no directional movement at all, so both DI values are 0 from
index 13 on while the ATR is positive. -/
def dfFlatRange : List Candle :=
  List.replicate 20 { high := 2, low := 1, close := 3 / 2 }

/-- Witness for C9 at the flat-range frame, index 13 (the first full
window): DI+ + DI- evaluates to 0 and DX to 0. -/
theorem C9_dx_zero_on_zero_denominator_witness :
    ((adxPlusDI dfFlatRange ADX_LEN).getD 13 FV.nan +
        (adxMinusDI dfFlatRange ADX_LEN).getD 13 FV.nan = FV.fin 0) ∧
      (adxDX dfFlatRange ADX_LEN).getD 13 FV.nan = FV.fin 0 :=
  ⟨by decide!, C9_dx_zero_on_zero_denominator dfFlatRange ADX_LEN 13 (by decide!)⟩

/-! Lemmas for the zero-ATR analysis (claims about degenerate stops). -/

theorem FV.max2_fin (a b : ℚ) : FV.max2 (FV.fin a) (FV.fin b) = FV.fin (max a b) := by
  show (if FV.le (FV.fin a) (FV.fin b) then FV.fin b else FV.fin a) = _
  by_cases h : a ≤ b
  · rw [if_pos (by simpa [FV.le] using h), max_eq_right h]
  · rw [if_neg (by simpa [FV.le] using h), max_eq_left (le_of_not_le h)]

theorem rowMax3_fin (a b c : ℚ) :
    rowMax3 (FV.fin a) (FV.fin b) (FV.fin c) = FV.fin (max (max a b) c) := by
  simp only [rowMax3]
  rw [FV.max2_fin, FV.max2_fin]

theorem FV.abs_fin (a : ℚ) : (FV.fin a).abs = FV.fin |a| := rfl

theorem FV.inf_div_fin_nonneg (b : Bool) (q : ℚ) (hq : 0 ≤ q) :
    FV.inf b / FV.fin q = FV.inf b := by
  show FV.div _ _ = _
  simp [FV.div, hq]

theorem prevCloseList_getElem_succ (cs : List Candle) (j : ℕ) (hj : j + 1 < cs.length)
    (hp : j + 1 < (prevCloseList cs).length) :
    (prevCloseList cs)[j + 1] = FV.fin (cs[j].close) := by
  cases cs with
  | nil => simp at hj
  | cons c cst =>
    simp only [prevCloseList, List.getElem_cons_succ]
    rw [List.getElem_dropLast, List.getElem_map]

theorem trList_getElem_succ (cs : List Candle) (j : ℕ) (hj : j + 1 < cs.length)
    (ht : j + 1 < (trList cs).length) :
    (trList cs)[j + 1] =
      FV.fin (max (max (cs[j + 1].high - cs[j + 1].low)
          |cs[j + 1].high - cs[j].close|)
        |cs[j + 1].low - cs[j].close|) := by
  simp only [trList]
  rw [List.getElem_zipWith,
    prevCloseList_getElem_succ cs j hj (by rw [length_prevCloseList]; omega),
    FV.sub_fin, FV.sub_fin, FV.sub_fin, FV.abs_fin, FV.abs_fin, rowMax3_fin]

theorem wellFormed_getElem {df : List Candle} (hw : wellFormed df = true) (j : ℕ)
    (hj : j < df.length) :
    (df[j]).low ≤ (df[j]).close ∧ (df[j]).close ≤ (df[j]).high := by
  have := List.all_eq_true.mp hw (df[j]) (List.getElem_mem hj)
  simpa using this

theorem closes_const_of_atr_zero (df : List Candle) (hw : wellFormed df = true)
    (hlen : minBars ≤ df.length) (h0 : atrNow df = FV.fin 0) :
    ∀ (j : ℕ) (_h1 : df.length - ATR_LEN ≤ j + 1) (h2 : j + 1 < df.length),
      (df[j + 1]).close = df[j].close := by
  have hMB : minBars = 55 := rfl
  have hAL : ATR_LEN = 14 := rfl
  rw [hMB] at hlen
  have hn1 : df.length - 1 < (trList df).length := by
    rw [length_trList]
    omega
  unfold atrNow atr at h0
  rw [rollingMean_getD _ _ _ hn1, hAL, if_neg (by omega)] at h0
  have hwinmem : ∀ x ∈ ((trList df).take (df.length - 1 + 1)).drop
      (df.length - 1 + 1 - 14), ∃ q : ℚ, 0 ≤ q ∧ x = FV.fin q := by
    intro x hx
    obtain ⟨j, hj1, hj2, hj, hxj⟩ := window_mem hx
    rw [length_trList] at hj
    obtain ⟨j2, rfl⟩ : ∃ j2, j = j2 + 1 := ⟨j - 1, by omega⟩
    subst hxj
    rw [trList_getElem_succ df j2 (by omega) (by rw [length_trList]; omega)]
    exact ⟨_, le_trans (abs_nonneg _) (le_max_right _ _), rfl⟩
  have hsum : FV.sumList (((trList df).take (df.length - 1 + 1)).drop
      (df.length - 1 + 1 - 14)) = FV.fin 0 := by
    obtain ⟨r, hr, hfold⟩ := foldl_add_fin _ hwinmem 0
    rw [zero_add] at hfold
    unfold FV.sumList at h0 ⊢
    rw [hfold] at h0 ⊢
    rw [FV.div_fin r _ (by norm_num)] at h0
    have : r / ((14 : ℕ) : ℚ) = 0 := by simpa using h0
    have hr0 : r = 0 := by
      field_simp at this
      simpa using this
    rw [hr0]
  have hall := foldl_add_eq_fin_zero _ hwinmem 0 le_rfl hsum
  intro j _h1 h2
  have htb : j + 1 < (trList df).length := by
    rw [length_trList]
    omega
  have htrj : (trList df)[j + 1] = FV.fin 0 := by
    apply hall
    have := window_getElem_mem (s := trList df) (w := 14) (i := df.length - 1)
      (j := j + 1) (by rw [length_trList] at *; omega) (by omega) htb
    simpa using this
  rw [trList_getElem_succ df j (by omega) htb] at htrj
  have hmax := (FV.fin.injEq _ _).mp htrj
  have h1 : |df[j + 1].high - df[j].close| ≤ 0 := by
    calc |df[j + 1].high - df[j].close| ≤
        max (max (df[j + 1].high - df[j + 1].low)
          |df[j + 1].high - df[j].close|)
          |df[j + 1].low - df[j].close| :=
          le_trans (le_max_right _ _) (le_max_left _ _)
      _ = 0 := hmax
  have h2b : |df[j + 1].low - df[j].close| ≤ 0 := by
    calc |df[j + 1].low - df[j].close| ≤
        max (max (df[j + 1].high - df[j + 1].low)
          |df[j + 1].high - df[j].close|)
          |df[j + 1].low - df[j].close| := le_max_right _ _
      _ = 0 := hmax
  have hhigh : df[j + 1].high = df[j].close := by
    have := abs_nonpos_iff.mp h1
    linarith [sub_eq_zero.mp this]
  have hlow : df[j + 1].low = df[j].close := by
    have := abs_nonpos_iff.mp h2b
    linarith [sub_eq_zero.mp this]
  have hwf := wellFormed_getElem hw (j + 1) (by omega)
  have hle1 := hwf.1
  have hle2 := hwf.2
  rw [hlow] at hle1
  rw [hhigh] at hle2
  linarith

theorem rsiNow_nan_of_const (df : List Candle) (hlen : minBars ≤ df.length)
    (hc : ∀ (j : ℕ) (_h1 : df.length - ATR_LEN ≤ j + 1) (h2 : j + 1 < df.length),
      (df[j + 1]).close = df[j].close) :
    rsiNow df = FV.nan := by
  have hMB : minBars = 55 := rfl
  rw [hMB] at hlen
  have hAL : ATR_LEN = 14 := rfl
  rw [hAL] at hc
  have hlc : (closeList df).length = df.length := by simp [closeList]
  unfold rsiNow
  rw [rsi_getD (closeList df) RSI_LEN (df.length - 1) (by rw [hlc]; omega)]
  have hRL : RSI_LEN = 14 := rfl
  rw [hRL]
  have hcl : ∀ (k : ℕ) (hk : k < df.length) (hck : k < (closeList df).length),
      (closeList df)[k] = (df[k]).close := by
    intro k hk hck
    simp [closeList]
  have hdelta : ∀ (j : ℕ) (_h1 : df.length - 14 ≤ j + 1) (h2 : j + 1 < df.length)
      (hd : j + 1 < (diffFV (closeList df)).length),
      (diffFV (closeList df))[j + 1] = FV.fin 0 := by
    intro j _h1 h2 hd
    rw [diffFV_getElem_succ (closeList df) j (by rw [hlc]; omega) hd]
    rw [hcl (j + 1) (by omega) (by rw [hlc]; omega),
      hcl j (by omega) (by rw [hlc]; omega), hc j _h1 h2]
    norm_num
  have hG : (rollingMean 14 ((diffFV (closeList df)).map (FV.clipLower 0))).getD
      (df.length - 1) FV.nan = FV.fin 0 := by
    rw [rollingMean_getD _ _ _ (by simp [length_diffFV, hlc]; omega),
      if_neg (by simp [length_diffFV, hlc]; omega)]
    have hwin : ∀ x ∈ (((diffFV (closeList df)).map (FV.clipLower 0)).take
        (df.length - 1 + 1)).drop (df.length - 1 + 1 - 14), x = FV.fin 0 := by
      intro x hx
      obtain ⟨j, hj1, hj2, hj, hxj⟩ := window_mem hx
      simp only [List.length_map, length_diffFV, hlc] at hj
      obtain ⟨j2, rfl⟩ : ∃ j2, j = j2 + 1 := ⟨j - 1, by omega⟩
      subst hxj
      rw [List.getElem_map,
        hdelta j2 (by omega) (by omega) (by rw [length_diffFV, hlc]; omega)]
      rfl
    unfold FV.sumList
    rw [foldl_add_zeros _ hwin 0, FV.div_fin 0 _ (by norm_num)]
    norm_num
  have hL : (rollingMean 14 (((diffFV (closeList df)).map (FV.clipUpper 0)).map
      FV.neg)).getD (df.length - 1) FV.nan = FV.fin 0 := by
    rw [rollingMean_getD _ _ _ (by simp [length_diffFV, hlc]; omega),
      if_neg (by simp [length_diffFV, hlc]; omega)]
    have hwin : ∀ x ∈ ((((diffFV (closeList df)).map (FV.clipUpper 0)).map
        FV.neg).take (df.length - 1 + 1)).drop (df.length - 1 + 1 - 14),
        x = FV.fin 0 := by
      intro x hx
      obtain ⟨j, hj1, hj2, hj, hxj⟩ := window_mem hx
      simp only [List.length_map, length_diffFV, hlc] at hj
      obtain ⟨j2, rfl⟩ : ∃ j2, j = j2 + 1 := ⟨j - 1, by omega⟩
      subst hxj
      rw [List.getElem_map, List.getElem_map,
        hdelta j2 (by omega) (by omega) (by rw [length_diffFV, hlc]; omega)]
      show FV.neg (FV.clipUpper 0 (FV.fin 0)) = FV.fin 0
      decide!
    unfold FV.sumList
    rw [foldl_add_zeros _ hwin 0, FV.div_fin 0 _ (by norm_num)]
    norm_num
  rw [hG, hL]
  decide!

theorem buyCond_false_of_rsi_nan (df : List Candle) (h : rsiNow df = FV.nan) :
    buyCond df = false := by
  simp [buyCond, h, FV.le_nan_right]

theorem sellCond_false_of_rsi_nan (df : List Candle) (h : rsiNow df = FV.nan) :
    sellCond df = false := by
  simp [sellCond, h, FV.le_nan_right]

theorem signalDirection_none_of_rsi_nan (df : List Candle) (h : rsiNow df = FV.nan) :
    signalDirection df = none := by
  unfold signalDirection
  split_ifs with h1 h2 h3 h4 h5 h6
  any_goals rfl
  · rw [buyCond_false_of_rsi_nan df h] at h5
    exact absurd h5 (by simp)
  · rw [sellCond_false_of_rsi_nan df h] at h6
    exact absurd h6 (by simp)

/-- C2 counterexample: a frame whose ATR at the decision bar is exactly 0
(the last 23 candles are malformed: high = low = previous close while the
closes keep moving, so every recent true range is 0) on which build_signal
does emit a BUY, with a zero-width stop: stop and all three targets all
equal the entry price.  The claim as stated quantifies over every candle
sequence and is therefore false. -/
theorem C2_counterexample :
    atrNow dfZero = FV.fin 0 ∧
      (build_signal "EURUSD" dfZero none).1 =
        some { pair := "EURUSD", direction := Direction.buy,
               price := FV.fin (15653 / 15625), sl := FV.fin (15653 / 15625),
               tp1 := FV.fin (15653 / 15625), tp2 := FV.fin (15653 / 15625),
               tp3 := FV.fin (15653 / 15625) } := by
  constructor
  · decide!
  · decide!

/-- C2 (amended): for frames of well-formed candles (each close between
the candle's low and high), zero ATR at the decision bar forces fourteen
zero true ranges, hence fifteen equal closes, hence a NaN RSI (0/0), and
both entry conjunctions fail: build_signal returns no signal and leaves
the state unchanged.  No division error can occur anywhere (the
arithmetic is total, divide-by-zero yielding NaN or infinity), and no
zero-width stop is emitted. -/
theorem C2_amended_zero_atr_holds (pair : String) (df : List Candle)
    (st : Option Direction) (hw : wellFormed df = true)
    (h0 : atrNow df = FV.fin 0) : build_signal pair df st = (none, st) := by
  by_cases hlen : df.length < minBars
  · exact build_signal_of_direction_none pair st (signalDirection_short hlen)
  · have hc := closes_const_of_atr_zero df hw (by omega) h0
    have hr := rsiNow_nan_of_const df (by omega) hc
    exact build_signal_of_direction_none pair st (signalDirection_none_of_rsi_nan df hr)

/-- A 60-bar constant frame: well formed, with zero ATR everywhere. -/
def dfConst : List Candle :=
  List.replicate 60 { high := 1, low := 1, close := 1 }

/-- Witness for C2 (amended) at the well-formed constant frame. -/
theorem C2_amended_zero_atr_holds_witness :
    wellFormed dfConst = true ∧ atrNow dfConst = FV.fin 0 ∧
      build_signal "EURUSD" dfConst none = (none, none) :=
  ⟨by decide!, by decide!,
    C2_amended_zero_atr_holds "EURUSD" dfConst none (by decide!) (by decide!)⟩

/-! Lemmas for the risk-geometry claim. -/

theorem signalDirection_minBars {df : List Candle} {d : Direction}
    (h : signalDirection df = some d) : minBars ≤ df.length := by
  by_contra hc
  rw [signalDirection_short (by omega)] at h
  exact absurd h (by simp)

theorem atrNow_fin (df : List Candle) (hlen : minBars ≤ df.length) :
    ∃ a : ℚ, 0 ≤ a ∧ atrNow df = FV.fin a := by
  have hMB : minBars = 55 := rfl
  rw [hMB] at hlen
  have hn1 : df.length - 1 < (trList df).length := by
    rw [length_trList]
    omega
  unfold atrNow atr
  rw [rollingMean_getD _ _ _ hn1, show ATR_LEN = 14 from rfl, if_neg (by omega)]
  have hwinmem : ∀ x ∈ ((trList df).take (df.length - 1 + 1)).drop
      (df.length - 1 + 1 - 14), ∃ q : ℚ, 0 ≤ q ∧ x = FV.fin q := by
    intro x hx
    obtain ⟨j, hj1, hj2, hj, hxj⟩ := window_mem hx
    rw [length_trList] at hj
    obtain ⟨j2, rfl⟩ : ∃ j2, j = j2 + 1 := ⟨j - 1, by omega⟩
    subst hxj
    rw [trList_getElem_succ df j2 (by omega)]
    exact ⟨_, le_trans (abs_nonneg _) (le_max_right _ _), rfl⟩
  obtain ⟨r, hr, hfold⟩ := foldl_add_fin _ hwinmem 0
  rw [zero_add] at hfold
  unfold FV.sumList
  rw [hfold, FV.div_fin r _ (by norm_num)]
  exact ⟨r / ((14 : ℕ) : ℚ), by positivity, rfl⟩

theorem build_signal_emit_buy (pair : String) {df : List Candle}
    {prev : Option Direction} (h : signalDirection df = some Direction.buy)
    (hp : prev ≠ some Direction.buy) :
    build_signal pair df prev =
      (some { pair := pair, direction := Direction.buy,
              price := FV.fin (priceNow df),
              sl := FV.fin (priceNow df) - FV.fin ATR_SL_MULT * atrNow df,
              tp1 := FV.fin (priceNow df) +
                FV.fin ATR_SL_MULT * atrNow df * FV.fin TP1_MULT,
              tp2 := FV.fin (priceNow df) +
                FV.fin ATR_SL_MULT * atrNow df * FV.fin TP2_MULT,
              tp3 := FV.fin (priceNow df) +
                FV.fin ATR_SL_MULT * atrNow df * FV.fin TP3_MULT },
        some Direction.buy) := by
  simp only [build_signal, h]
  rw [if_neg hp]

theorem build_signal_emit_sell (pair : String) {df : List Candle}
    {prev : Option Direction} (h : signalDirection df = some Direction.sell)
    (hp : prev ≠ some Direction.sell) :
    build_signal pair df prev =
      (some { pair := pair, direction := Direction.sell,
              price := FV.fin (priceNow df),
              sl := FV.fin (priceNow df) + FV.fin ATR_SL_MULT * atrNow df,
              tp1 := FV.fin (priceNow df) -
                FV.fin ATR_SL_MULT * atrNow df * FV.fin TP1_MULT,
              tp2 := FV.fin (priceNow df) -
                FV.fin ATR_SL_MULT * atrNow df * FV.fin TP2_MULT,
              tp3 := FV.fin (priceNow df) -
                FV.fin ATR_SL_MULT * atrNow df * FV.fin TP3_MULT },
        some Direction.sell) := by
  simp only [build_signal, h]
  rw [if_neg hp]

theorem atrNow_pos_of_direction (df : List Candle) {d : Direction}
    (hw : wellFormed df = true) (hsd : signalDirection df = some d) :
    ∃ a : ℚ, 0 < a ∧ atrNow df = FV.fin a := by
  have hlen := signalDirection_minBars hsd
  obtain ⟨a, ha, hafin⟩ := atrNow_fin df hlen
  refine ⟨a, ?_, hafin⟩
  rcases lt_or_eq_of_le ha with h | h
  · exact h
  · exfalso
    rw [← h] at hafin
    have hc := closes_const_of_atr_zero df hw hlen hafin
    have hr := rsiNow_nan_of_const df hlen hc
    rw [signalDirection_none_of_rsi_nan df hr] at hsd
    exact absurd hsd (by simp)

/-- C7 counterexample: on the malformed zero-ATR frame, build_signal emits
a BUY signal whose stop-loss is not strictly below the entry price (the
ATR is 0, so the stop and all targets coincide with the price): the
strict-ordering part of the claim fails on arbitrary candle data. -/
theorem C7_counterexample :
    (build_signal "EURUSD" dfZero none).1 =
      some { pair := "EURUSD", direction := Direction.buy,
             price := FV.fin (15653 / 15625), sl := FV.fin (15653 / 15625),
             tp1 := FV.fin (15653 / 15625), tp2 := FV.fin (15653 / 15625),
             tp3 := FV.fin (15653 / 15625) } ∧
      FV.lt (FV.fin (15653 / 15625)) (FV.fin (15653 / 15625)) = false := by
  constructor
  · decide!
  · decide!

/-- C7 (amended): every emitted signal, on any candle data, carries the
stated geometry exactly: the ATR at emission is a finite nonnegative value
a, the entry is the last close, the stop distance is ATR_SL_MULT * a and
the take-profit distances are the risk times TP1_MULT, TP2_MULT, TP3_MULT
(signed by direction); and when the candle data is well-formed the ATR is
moreover strictly positive, so for a BUY the stop is strictly below the
entry and the three targets strictly above it in increasing order, and
mirrored for a SELL. -/
theorem C7_amended_risk_geometry (pair : String) (df : List Candle)
    (st : Option Direction) (sig : Signal)
    (hemit : (build_signal pair df st).1 = some sig) :
    ∃ a : ℚ, 0 ≤ a ∧ atrNow df = FV.fin a ∧
      sig.price = FV.fin (priceNow df) ∧
      (sig.direction = Direction.buy →
        sig.sl = FV.fin (priceNow df - ATR_SL_MULT * a) ∧
        sig.tp1 = FV.fin (priceNow df + ATR_SL_MULT * a * TP1_MULT) ∧
        sig.tp2 = FV.fin (priceNow df + ATR_SL_MULT * a * TP2_MULT) ∧
        sig.tp3 = FV.fin (priceNow df + ATR_SL_MULT * a * TP3_MULT)) ∧
      (sig.direction = Direction.sell →
        sig.sl = FV.fin (priceNow df + ATR_SL_MULT * a) ∧
        sig.tp1 = FV.fin (priceNow df - ATR_SL_MULT * a * TP1_MULT) ∧
        sig.tp2 = FV.fin (priceNow df - ATR_SL_MULT * a * TP2_MULT) ∧
        sig.tp3 = FV.fin (priceNow df - ATR_SL_MULT * a * TP3_MULT)) ∧
      (wellFormed df = true → 0 < a ∧
        (sig.direction = Direction.buy →
          priceNow df - ATR_SL_MULT * a < priceNow df ∧
          priceNow df < priceNow df + ATR_SL_MULT * a * TP1_MULT ∧
          priceNow df + ATR_SL_MULT * a * TP1_MULT <
            priceNow df + ATR_SL_MULT * a * TP2_MULT ∧
          priceNow df + ATR_SL_MULT * a * TP2_MULT <
            priceNow df + ATR_SL_MULT * a * TP3_MULT) ∧
        (sig.direction = Direction.sell →
          priceNow df < priceNow df + ATR_SL_MULT * a ∧
          priceNow df - ATR_SL_MULT * a * TP1_MULT < priceNow df ∧
          priceNow df - ATR_SL_MULT * a * TP2_MULT <
            priceNow df - ATR_SL_MULT * a * TP1_MULT ∧
          priceNow df - ATR_SL_MULT * a * TP3_MULT <
            priceNow df - ATR_SL_MULT * a * TP2_MULT)) := by
  cases hsd : signalDirection df with
  | none =>
    rw [build_signal_of_direction_none pair st hsd] at hemit
    exact absurd hemit (by simp)
  | some d =>
    have hlen := signalDirection_minBars hsd
    obtain ⟨a, ha, hafin⟩ := atrNow_fin df hlen
    by_cases hst : st = some d
    · rw [hst, build_signal_suppressed pair hsd] at hemit
      exact absurd hemit (by simp)
    · have hpos : wellFormed df = true → 0 < a := by
        intro hw
        obtain ⟨a2, ha2, hafin2⟩ := atrNow_pos_of_direction df hw hsd
        rw [hafin] at hafin2
        rw [FV.fin.inj hafin2]
        exact ha2
      cases d with
      | buy =>
        rw [build_signal_emit_buy pair hsd hst] at hemit
        have hsig := (Option.some.inj hemit).symm
        refine ⟨a, ha, hafin, ?_⟩
        rw [hsig, hafin]
        rw [FV.mul_fin, FV.sub_fin, FV.mul_fin, FV.mul_fin, FV.mul_fin,
          FV.add_fin, FV.add_fin, FV.add_fin]
        refine ⟨rfl, ?_, ?_, ?_⟩
        · intro _
          exact ⟨rfl, rfl, rfl, rfl⟩
        · intro hcon
          exact absurd hcon (by simp)
        · intro hw
          have hapos := hpos hw
          refine ⟨hapos, ?_, ?_⟩
          · intro _
            refine ⟨?_, ?_, ?_, ?_⟩ <;>
              · simp only [ATR_SL_MULT, TP1_MULT, TP2_MULT, TP3_MULT]
                nlinarith [hapos]
          · intro hcon
            exact absurd hcon (by simp)
      | sell =>
        rw [build_signal_emit_sell pair hsd hst] at hemit
        have hsig := (Option.some.inj hemit).symm
        refine ⟨a, ha, hafin, ?_⟩
        rw [hsig, hafin]
        rw [FV.mul_fin, FV.add_fin, FV.mul_fin, FV.mul_fin, FV.mul_fin,
          FV.sub_fin, FV.sub_fin, FV.sub_fin]
        refine ⟨rfl, ?_, ?_, ?_⟩
        · intro hcon
          exact absurd hcon (by simp)
        · intro _
          exact ⟨rfl, rfl, rfl, rfl⟩
        · intro hw
          have hapos := hpos hw
          refine ⟨hapos, ?_, ?_⟩
          · intro hcon
            exact absurd hcon (by simp)
          · intro _
            refine ⟨?_, ?_, ?_, ?_⟩ <;>
              · simp only [ATR_SL_MULT, TP1_MULT, TP2_MULT, TP3_MULT]
                nlinarith [hapos]

/-- Witness for C7 (amended): the geometry instantiated on the emission
produced by the concrete BUY frame, with the record projections evaluated. -/
theorem C7_amended_risk_geometry_witness :
    (build_signal "EURUSD" dfBuy none).1 =
      some (Signal.mk "EURUSD" Direction.buy (FV.fin (15653 / 15625))
        (FV.fin (15653 / 15625 - 3 / 2500)) (FV.fin (15653 / 15625 + 3 / 2500))
        (FV.fin (15653 / 15625 + 9 / 5 * (3 / 2500)))
        (FV.fin (15653 / 15625 + 5 / 2 * (3 / 2500)))) ∧
      (∃ a : ℚ, 0 ≤ a ∧ atrNow dfBuy = FV.fin a ∧
        FV.fin (15653 / 15625) = FV.fin (priceNow dfBuy) ∧
        (Direction.buy = Direction.buy →
          FV.fin (15653 / 15625 - 3 / 2500) =
            FV.fin (priceNow dfBuy - ATR_SL_MULT * a) ∧
          FV.fin (15653 / 15625 + 3 / 2500) =
            FV.fin (priceNow dfBuy + ATR_SL_MULT * a * TP1_MULT) ∧
          FV.fin (15653 / 15625 + 9 / 5 * (3 / 2500)) =
            FV.fin (priceNow dfBuy + ATR_SL_MULT * a * TP2_MULT) ∧
          FV.fin (15653 / 15625 + 5 / 2 * (3 / 2500)) =
            FV.fin (priceNow dfBuy + ATR_SL_MULT * a * TP3_MULT)) ∧
        (Direction.buy = Direction.sell →
          FV.fin (15653 / 15625 - 3 / 2500) =
            FV.fin (priceNow dfBuy + ATR_SL_MULT * a) ∧
          FV.fin (15653 / 15625 + 3 / 2500) =
            FV.fin (priceNow dfBuy - ATR_SL_MULT * a * TP1_MULT) ∧
          FV.fin (15653 / 15625 + 9 / 5 * (3 / 2500)) =
            FV.fin (priceNow dfBuy - ATR_SL_MULT * a * TP2_MULT) ∧
          FV.fin (15653 / 15625 + 5 / 2 * (3 / 2500)) =
            FV.fin (priceNow dfBuy - ATR_SL_MULT * a * TP3_MULT)) ∧
        (wellFormed dfBuy = true → 0 < a ∧
          (Direction.buy = Direction.buy →
            priceNow dfBuy - ATR_SL_MULT * a < priceNow dfBuy ∧
            priceNow dfBuy < priceNow dfBuy + ATR_SL_MULT * a * TP1_MULT ∧
            priceNow dfBuy + ATR_SL_MULT * a * TP1_MULT <
              priceNow dfBuy + ATR_SL_MULT * a * TP2_MULT ∧
            priceNow dfBuy + ATR_SL_MULT * a * TP2_MULT <
              priceNow dfBuy + ATR_SL_MULT * a * TP3_MULT) ∧
          (Direction.buy = Direction.sell →
            priceNow dfBuy < priceNow dfBuy + ATR_SL_MULT * a ∧
            priceNow dfBuy - ATR_SL_MULT * a * TP1_MULT < priceNow dfBuy ∧
            priceNow dfBuy - ATR_SL_MULT * a * TP2_MULT <
              priceNow dfBuy - ATR_SL_MULT * a * TP1_MULT ∧
            priceNow dfBuy - ATR_SL_MULT * a * TP3_MULT <
              priceNow dfBuy - ATR_SL_MULT * a * TP2_MULT))) :=
  ⟨by decide!,
    C7_amended_risk_geometry "EURUSD" dfBuy none
      (Signal.mk "EURUSD" Direction.buy (FV.fin (15653 / 15625))
        (FV.fin (15653 / 15625 - 3 / 2500)) (FV.fin (15653 / 15625 + 3 / 2500))
        (FV.fin (15653 / 15625 + 9 / 5 * (3 / 2500)))
        (FV.fin (15653 / 15625 + 5 / 2 * (3 / 2500))))
      (by decide!)⟩

/-! Lemmas for the constant-series claim. -/

theorem emaGo_const (a c : ℚ) (m : ℕ) :
    emaGo a c (List.replicate m c) = List.replicate m c := by
  induction m with
  | zero => rfl
  | succ k ih =>
    rw [List.replicate_succ]
    simp only [emaGo]
    have hy : (1 - a) * c + a * c = c := by ring
    rw [hy, ih]

theorem ema_const (c : ℚ) (n len : ℕ) :
    ema (List.replicate n c) len = List.replicate n c := by
  cases n with
  | zero => rfl
  | succ m =>
    rw [List.replicate_succ]
    show c :: emaGo (2 / ((len : ℚ) + 1)) c (List.replicate m c) =
      c :: List.replicate m c
    rw [emaGo_const]

theorem diffFV_getElem_zero (s : List ℚ) (h : 0 < s.length)
    (hd : 0 < (diffFV s).length) :
    (diffFV s)[0] = FV.nan := by
  cases s with
  | nil => simp at h
  | cons x xs => rfl

theorem foldl_add_nan_or_zero (l : List FV)
    (h : ∀ x ∈ l, x = FV.nan ∨ x = FV.fin 0) :
    ∀ q0 : ℚ, l.foldl FV.add (FV.fin q0) = FV.nan ∨
      l.foldl FV.add (FV.fin q0) = FV.fin q0 := by
  induction l with
  | nil => exact fun q0 => Or.inr rfl
  | cons x xs ih =>
    intro q0
    rcases h x (List.mem_cons_self x xs) with hx | hx
    · left
      rw [List.foldl_cons, hx, show FV.add (FV.fin q0) FV.nan = FV.nan from rfl]
      exact foldl_add_nan xs
    · rw [List.foldl_cons, hx,
        show FV.add (FV.fin q0) (FV.fin 0) = FV.fin (q0 + 0) from rfl, add_zero]
      exact ih (fun y hy => h y (List.mem_cons_of_mem x hy)) q0

theorem rollingMean_nan_or_zero (w : ℕ) (hw : w ≠ 0) (s : List FV) (i : ℕ)
    (h : ∀ x ∈ s, x = FV.nan ∨ x = FV.fin 0) :
    (rollingMean w s).getD i FV.nan = FV.nan ∨
      (rollingMean w s).getD i FV.nan = FV.fin 0 := by
  by_cases hi : i < s.length
  · rw [rollingMean_getD w s i hi]
    by_cases hiw : i + 1 < w
    · left
      rw [if_pos hiw]
    · rw [if_neg hiw]
      rcases foldl_add_nan_or_zero _ (fun x hx =>
          h x (List.mem_of_mem_take (List.mem_of_mem_drop hx))) 0 with hc | hc
      · left
        unfold FV.sumList
        rw [hc]
        rfl
      · right
        unfold FV.sumList
        rw [hc, FV.div_fin 0 _ (Nat.cast_ne_zero.mpr hw)]
        norm_num
  · left
    rw [List.getD_eq_default _ _ (by rw [length_rollingMean]; omega)]

theorem gain_replicate_mem (c : ℚ) (n : ℕ) :
    ∀ x ∈ (diffFV (List.replicate n c)).map (FV.clipLower 0),
      x = FV.nan ∨ x = FV.fin 0 := by
  intro x hx
  rw [List.mem_map] at hx
  obtain ⟨v, hv, hvx⟩ := hx
  rw [List.mem_iff_getElem] at hv
  obtain ⟨k, hk, hkv⟩ := hv
  rw [length_diffFV, List.length_replicate] at hk
  cases k with
  | zero =>
    rw [diffFV_getElem_zero _ (by simp [List.length_replicate]; omega)
      (by rw [length_diffFV]; simp [List.length_replicate]; omega)] at hkv
    left
    rw [← hvx, ← hkv]
    rfl
  | succ k2 =>
    rw [diffFV_getElem_succ _ k2 (by simp [List.length_replicate]; omega)
      (by rw [length_diffFV]; simp [List.length_replicate]; omega)] at hkv
    right
    rw [← hvx, ← hkv]
    simp [FV.clipLower, List.getElem_replicate, sub_self]

theorem loss_replicate_mem (c : ℚ) (n : ℕ) :
    ∀ x ∈ ((diffFV (List.replicate n c)).map (FV.clipUpper 0)).map FV.neg,
      x = FV.nan ∨ x = FV.fin 0 := by
  intro x hx
  rw [List.mem_map] at hx
  obtain ⟨u, hu, hux⟩ := hx
  rw [List.mem_map] at hu
  obtain ⟨v, hv, hvu⟩ := hu
  rw [List.mem_iff_getElem] at hv
  obtain ⟨k, hk, hkv⟩ := hv
  rw [length_diffFV, List.length_replicate] at hk
  cases k with
  | zero =>
    rw [diffFV_getElem_zero _ (by simp [List.length_replicate]; omega)
      (by rw [length_diffFV]; simp [List.length_replicate]; omega)] at hkv
    left
    rw [← hux, ← hvu, ← hkv]
    rfl
  | succ k2 =>
    rw [diffFV_getElem_succ _ k2 (by simp [List.length_replicate]; omega)
      (by rw [length_diffFV]; simp [List.length_replicate]; omega)] at hkv
    right
    rw [← hux, ← hvu, ← hkv]
    simp [FV.clipUpper, FV.neg, List.getElem_replicate, sub_self]

theorem rsi_formula_nan_left (l : FV) :
    FV.fin 100 - FV.fin 100 / (FV.fin 1 + FV.nan / l) = FV.nan := by
  rw [show (FV.nan / l : FV) = FV.nan from rfl, FV.add_nan_right, FV.div_nan_right,
    FV.sub_nan_right]

theorem rsi_formula_nan_right (g : FV) :
    FV.fin 100 - FV.fin 100 / (FV.fin 1 + g / FV.nan) = FV.nan := by
  rw [FV.div_nan_right, FV.add_nan_right, FV.div_nan_right, FV.sub_nan_right]

theorem rsi_formula_zero_zero :
    FV.fin 100 - FV.fin 100 / (FV.fin 1 + FV.fin 0 / FV.fin 0) = FV.nan := by
  decide!

theorem rsi_replicate_isna (c : ℚ) (n i : ℕ) :
    ((rsi (List.replicate n c) RSI_LEN).getD i FV.nan).isna = true := by
  by_cases hi : i < n
  · rw [rsi_getD _ _ i (by rw [List.length_replicate]; exact hi)]
    rcases rollingMean_nan_or_zero RSI_LEN (by decide) _ i
        (gain_replicate_mem c n) with hG | hG <;>
      rcases rollingMean_nan_or_zero RSI_LEN (by decide) _ i
          (loss_replicate_mem c n) with hL | hL <;>
        rw [hG, hL]
    · rw [rsi_formula_nan_left]
      rfl
    · rw [rsi_formula_nan_left]
      rfl
    · rw [rsi_formula_nan_right]
      rfl
    · rw [rsi_formula_zero_zero]
      rfl
  · rw [List.getD_eq_default _ _ (by rw [length_rsi, List.length_replicate]; omega)]
    rfl

/-- C5 counterexample: on a constant series the RSI is NaN (undefined) at
every index, including far past the warm-up: it does not converge to 50;
at index 29 of a 30-bar constant series the RSI value is NaN and in
particular not 50. -/
theorem C5_counterexample :
    (rsi (List.replicate 30 (1 : ℚ)) RSI_LEN).getD 29 FV.nan = FV.nan ∧
      (rsi (List.replicate 30 (1 : ℚ)) RSI_LEN).getD 29 FV.nan ≠ FV.fin 50 := by
  constructor
  · decide!
  · decide!

/-- C5 (amended): on a constant-price series the EMA reproduces the
constant at every index and for every window length, and the RSI is NaN
(undefined) at every index, because both the average gain and the average
loss are 0 and 0/0 is NaN - not 50; no division error occurs (the
arithmetic is total and yields NaN). -/
theorem C5_amended_const_series (c : ℚ) (n len i : ℕ) :
    ema (List.replicate n c) len = List.replicate n c ∧
      ((rsi (List.replicate n c) RSI_LEN).getD i FV.nan).isna = true :=
  ⟨ema_const c n len, rsi_replicate_isna c n i⟩

/-- C6 counterexample: a frame satisfying the claim's premises - EMA(9)
crosses above EMA(21) at the last bar, RSI(14) there is exactly 62 and
ATR(14) exactly 0.0012 - on which the evaluator emits nothing at all
(this variant keys on EMA(20)/EMA(50), which have not crossed), let alone
a BUY with stop price - 1.5 * 0.0012. -/
theorem C6_counterexample :
    cross_above ((ema (closeList dfCex6) 9).getD 54 0)
        ((ema (closeList dfCex6) 21).getD 54 0)
        ((ema (closeList dfCex6) 9).getD 53 0)
        ((ema (closeList dfCex6) 21).getD 53 0) = true ∧
      rsiNow dfCex6 = FV.fin 62 ∧ atrNow dfCex6 = FV.fin (3 / 2500) ∧
      (build_signal "EURUSD" dfCex6 none).1 = none := by
  refine ⟨?_, ?_, ?_, ?_⟩
  · decide!
  · decide!
  · decide!
  · decide!

/-- C6 (amended): with this variant's parameters, on a frame where the
fast EMA(20) crosses above the slow EMA(50) at the decision bar, RSI(14)
is 62 (inside the buy band [40, 65]), ATR(14) is 0.0012 and the remaining
filters pass, the evaluator emits BUY at price 1.001792 with stop
price - 1.0 * 0.0012 and targets price + 1.0/1.8/2.5 * 0.0012; the values
are exact rationals, so they agree with the stated levels within any
positive tolerance. -/
theorem C6_amended_scenario :
    cross_above (emaFnow dfBuy) (emaSnow dfBuy) (emaFprev dfBuy)
        (emaSprev dfBuy) = true ∧
      rsiNow dfBuy = FV.fin 62 ∧ atrNow dfBuy = FV.fin (3 / 2500) ∧
      (build_signal "EURUSD" dfBuy none).1 =
        some { pair := "EURUSD", direction := Direction.buy,
               price := FV.fin (15653 / 15625),
               sl := FV.fin (15653 / 15625 - 3 / 2500),
               tp1 := FV.fin (15653 / 15625 + 3 / 2500),
               tp2 := FV.fin (15653 / 15625 + 9 / 5 * (3 / 2500)),
               tp3 := FV.fin (15653 / 15625 + 5 / 2 * (3 / 2500)) } := by
  refine ⟨?_, ?_, ?_, ?_⟩
  · decide!
  · decide!
  · decide!
  · decide!

end ForexBot
